import Mathlib

/-!
Verification of the Sudoku solver engine in `src/main.cpp`.

The C++ engine is shallowly embedded here.  Conventions of the embedding:

* A C++ `char` is modelled as a `Nat` holding its code point
  (`'0'` is `48`, `'1'` is `49`, …, `'9'` is `57`, `'\0'` is `0`).
* `size_t` arithmetic that can wrap is modelled with explicit `% 2 ^ 64`
  (see `digit_to_idx`, the one place where wrap-around matters).
* The 9x9 grids (`grid_`, `constraint_counts_`) are `List Nat` of length 81
  indexed at `x * 9 + y`, exactly the layout of `std::array<_, 81>`.
* The constraints cube `constraints_` (`bool[9][9][9]`) is a
  `List (List (List Bool))` indexed `[x][y][digit-index]`.
* Counting `for` loops are modelled as structural recursion over the list
  of remaining loop indices (`List.range 9` for `for(i = 0; i < SIZE; ++i)`),
  so that every definition reduces inside the kernel.
* Reads of the grid inside the engine always happen at loop indices `< 9`
  (the checked `get_cell` never throws at those call sites), so they are
  modelled by the total `readCell`.  The one reachable bounds check, the
  constructor's `set_value` on the 82nd character, is modelled by the
  checked `set_value_chk`.
* The *unchecked* `std::array<bool, 9>::operator[]` reads in
  `get_game_state` (`row_set[row_idx]` …) and the unchecked constraint
  writes in `update_constraint` are undefined behaviour in C++ when the
  index exceeds 8; the embedding makes that branch explicit as the error
  `Err.oob`.
* Fallible code returns `Except Err`; the recursive search additionally
  carries fuel (`Option`, `none` = fuel exhausted); fuel sufficiency is
  proved below, so the fuel is an artefact of totality, not of the model.
-/

/-- Error outcomes of the embedded engine.
`invalidArgument` = the C++ `std::invalid_argument` thrown by
`get_cell`/`set_cell`; `rangeError` = the `std::range_error`
("Too many digits in the puzzle"); `oob` = an out-of-bounds unchecked
array access (undefined behaviour in the C++). -/
inductive Err where
  | invalidArgument : Err
  | rangeError : Err
  | oob : Err
deriving DecidableEq, Repr

/-- The `GameState` enum of the source. -/
inductive GameState where
  | SOLVED : GameState
  | VIOLATION : GameState
  | VALID : GameState
  | NO_CHOICES_FOR_EMPTY_CELL : GameState
deriving DecidableEq, Repr

deriving instance DecidableEq for Except

/-- `static constexpr char EMPTY_CELL = '0';` (code point 48). -/
def EMPTY_CELL : Nat := 48

/-- `static constexpr std::size_t SIZE = 9;` -/
def SIZE : Nat := 9

/-- `static constexpr std::size_t NUM_CELLS = 81;` -/
def NUM_CELLS : Nat := 81

/-- The fixed quadrant-center table `quadrants` of the source. -/
def quadrants : List (Nat × Nat) :=
  [(1, 1), (1, 4), (1, 7), (4, 1), (4, 4), (4, 7), (7, 1), (7, 4), (7, 7)]

/-- Total read of an 81-cell grid at `(x, y)`: `grid[x * SIZE + y]`.
Used at the engine's internal call sites, where `x, y < 9` always holds
(so the checked `get_cell` never throws there). -/
def readCell (g : List Nat) (x y : Nat) : Nat :=
  g.getD (x * 9 + y) 0

/-- Total write of an 81-cell grid at `(x, y)`. -/
def writeCell (g : List Nat) (x y v : Nat) : List Nat :=
  g.set (x * 9 + y) v

/-- `digit_to_idx`: `static_cast<size_t>(value - '1')`.  `value - '1'` is
computed in `int` and then converted to `size_t`, so a value below 49
wraps modulo `2 ^ 64`. -/
def digit_to_idx (value : Nat) : Nat :=
  (value + (2 ^ 64 - 49)) % 2 ^ 64

/-- Checked read of a length-9 `std::array<bool, SIZE>` through the
*unchecked* `operator[]`: an index above 8 is undefined behaviour in the
C++, modelled as the explicit error `Err.oob`. -/
def readSet (l : List Bool) (i : Nat) : Except Err Bool :=
  if i < 9 then .ok (l.getD i false) else .error .oob

/-- Checked write of a length-9 `std::array<bool, SIZE>` (same undefined
behaviour modelling as `readSet`). -/
def writeSet (l : List Bool) (i : Nat) (v : Bool) : Except Err (List Bool) :=
  if i < 9 then .ok (l.set i v) else .error .oob

/-- `available_digits`: `std::vector<char> digits{SIZE};` brace-initializes
a vector holding the single element `char(9)` (the `initializer_list`
constructor, `SIZE = 9` narrowed to `char`), after which one char per set
constraint bit is appended; the final `if(digits.size())` is therefore
always true and the `EMPTY_CELL` push-back is dead code. -/
def available_digits (constraints : List Bool) : List Nat :=
  let digits : List Nat :=
    [9] ++ (List.range 9).filterMap
      (fun i => if constraints.getD i false then some (49 + i) else none)
  if digits.length ≠ 0 then digits else digits ++ [EMPTY_CELL]

/-- One iteration of `find_closest_quadrant_idx`'s loop body:
fold state is `(min_idx, dist)`, scanning quadrant `i`. -/
def fcq_step (x y : Nat) (acc : Nat × Nat) (i : Nat) : Nat × Nat :=
  let q := quadrants.getD i (0, 0)
  let x_diff := max x q.1 - min x q.1
  let y_diff := max y q.2 - min y q.2
  let cur_dist := x_diff + y_diff
  if cur_dist < acc.2 then (i, cur_dist) else acc

/-- `find_closest_quadrant_idx`: scans the nine quadrant centers keeping
the first index of minimal Manhattan distance (initial distance 1000). -/
def find_closest_quadrant_idx (x y : Nat) : Nat :=
  ((List.range 9).foldl (fcq_step x y) (0, 1000)).1

/-- The nine cells of the 3x3 box with center `q`, in the iteration order
of `update_constraint_from_quadrant` / the `get_game_state` box scan
(`i` from `q.x - 1` to `q.x + 1`, inner `j` from `q.y - 1` to `q.y + 1`). -/
def boxCellList (q : Nat × Nat) : List (Nat × Nat) :=
  [(q.1 - 1, q.2 - 1), (q.1 - 1, q.2), (q.1 - 1, q.2 + 1),
   (q.1, q.2 - 1), (q.1, q.2), (q.1, q.2 + 1),
   (q.1 + 1, q.2 - 1), (q.1 + 1, q.2), (q.1 + 1, q.2 + 1)]

/-- The solver state: the three member arrays of class `SudokuSolver`. -/
structure SudokuSolver where
  grid : List Nat
  counts : List Nat
  cube : List (List (List Bool))
deriving DecidableEq, Repr

/-- `constraints_[x][y]`. -/
def cubeAt (cube : List (List (List Bool))) (x y : Nat) : List Bool :=
  (cube.getD x []).getD y []

/-- Write `constraints_[x][y] := l`. -/
def setCube (s : SudokuSolver) (x y : Nat) (l : List Bool) : SudokuSolver :=
  { s with cube := s.cube.set x ((s.cube.getD x []).set y l) }

/-- `get_constraint_count(x, y)` (total; call sites have `x, y < 9`). -/
def get_constraint_count (s : SudokuSolver) (x y : Nat) : Nat :=
  s.counts.getD (x * 9 + y) 0

/-- Write `constraint_counts_[x * 9 + y] := n`. -/
def setCount (s : SudokuSolver) (x y n : Nat) : SudokuSolver :=
  { s with counts := s.counts.set (x * 9 + y) n }

/-- `set_value` at the engine's internal (always in-bounds) call sites. -/
def set_value (s : SudokuSolver) (x y v : Nat) : SudokuSolver :=
  { s with grid := writeCell s.grid x y v }

/-- The checked `set_cell`/`set_value` as used by the constructor, where
the bounds check is reachable (82nd character ⇒ `x = 9`). -/
def set_value_chk (s : SudokuSolver) (x y v : Nat) : Except Err SudokuSolver :=
  if 9 ≤ x ∨ 9 ≤ y then .error .invalidArgument
  else .ok (set_value s x y v)

/-- The row half of one step of `get_game_state`'s lockstep row/column
scan: cell `(rc, step)`.  Returns an early `GameState`
(`VIOLATION` / `NO_CHOICES_FOR_EMPTY_CELL`), or the updated
`(row_set, num_filled_cells)`. -/
def rowStep (g counts : List Nat) (rc step : Nat) (rs : List Bool) (nf : Nat) :
    Except Err (GameState ⊕ (List Bool × Nat)) :=
  if readCell g rc step ≠ EMPTY_CELL then
    match readSet rs (digit_to_idx (readCell g rc step)) with
    | .error e => .error e
    | .ok true => .ok (.inl .VIOLATION)
    | .ok false => .ok (.inr (rs.set (digit_to_idx (readCell g rc step)) true, nf + 1))
  else
    if counts.getD (rc * 9 + step) 0 = 0 then
      .ok (.inl .NO_CHOICES_FOR_EMPTY_CELL)
    else .ok (.inr (rs, nf))

/-- The column half of one step of the lockstep scan: cell `(step, rc)`.
Returns an early `VIOLATION` or the updated `col_set`. -/
def colStep (g : List Nat) (rc step : Nat) (cs : List Bool) :
    Except Err (GameState ⊕ List Bool) :=
  if readCell g step rc ≠ EMPTY_CELL then
    match readSet cs (digit_to_idx (readCell g step rc)) with
    | .error e => .error e
    | .ok true => .ok (.inl .VIOLATION)
    | .ok false => .ok (.inr (cs.set (digit_to_idx (readCell g step rc)) true))
  else .ok (.inr cs)

/-- The inner `step` loop of `get_game_state` for one `row_col = rc`,
iterating over the list of remaining `step` indices (`List.range 9` at the
call site); threads `row_set`, `col_set` and `num_filled_cells`.
`.inr nf` means the loop completed without early return. -/
def gsInner (g counts : List Nat) (rc : Nat) :
    List Nat → List Bool → List Bool → Nat → Except Err (GameState ⊕ Nat)
  | [], _, _, nf => .ok (.inr nf)
  | step :: rest, rs, cs, nf =>
    match rowStep g counts rc step rs nf with
    | .error e => .error e
    | .ok (.inl st) => .ok (.inl st)
    | .ok (.inr (rs', nf')) =>
      match colStep g rc step cs with
      | .error e => .error e
      | .ok (.inl st) => .ok (.inl st)
      | .ok (.inr cs') => gsInner g counts rc rest rs' cs' nf'

/-- The outer `row_col` loop of `get_game_state`, iterating over the list
of remaining `row_col` indices; `.inr nf` means the whole row/column pass
completed with `nf` filled cells counted. -/
def gsOuter (g counts : List Nat) : List Nat → Nat → Except Err (GameState ⊕ Nat)
  | [], nf => .ok (.inr nf)
  | rc :: rest, nf =>
    match gsInner g counts rc (List.range 9)
        (List.replicate 9 false) (List.replicate 9 false) nf with
    | .error e => .error e
    | .ok (.inl st) => .ok (.inl st)
    | .ok (.inr nf') => gsOuter g counts rest nf'

/-- One cell of `get_game_state`'s box scan: duplicate check against
`quadrant_set` for a filled cell. -/
def boxStep (g : List Nat) (ij : Nat × Nat) (qs : List Bool) :
    Except Err (GameState ⊕ List Bool) :=
  if readCell g ij.1 ij.2 ≠ EMPTY_CELL then
    match readSet qs (digit_to_idx (readCell g ij.1 ij.2)) with
    | .error e => .error e
    | .ok true => .ok (.inl .VIOLATION)
    | .ok false => .ok (.inr (qs.set (digit_to_idx (readCell g ij.1 ij.2)) true))
  else .ok (.inr qs)

/-- The inner scan of one quadrant in `get_game_state`'s box pass,
threading `quadrant_set`; `some VIOLATION` on a duplicate. -/
def boxInner (g : List Nat) : List (Nat × Nat) → List Bool → Except Err (Option GameState)
  | [], _ => .ok none
  | ij :: rest, qs =>
    match boxStep g ij qs with
    | .error e => .error e
    | .ok (.inl st) => .ok (some st)
    | .ok (.inr qs') => boxInner g rest qs'

/-- The `for(auto& q : quadrants)` box pass of `get_game_state`. -/
def boxesPass (g : List Nat) : List (Nat × Nat) → Except Err (Option GameState)
  | [] => .ok none
  | q :: qs =>
    match boxInner g (boxCellList q) (List.replicate 9 false) with
    | .error e => .error e
    | .ok (some st) => .ok (some st)
    | .ok none => boxesPass g qs

/-- `SudokuSolver::get_game_state`: the lockstep row/column pass, then the
box pass, then the `num_filled_cells == NUM_CELLS` solved check.  Reads
only `grid_` and `constraint_counts_` (never `constraints_`). -/
def get_game_state (s : SudokuSolver) : Except Err GameState :=
  match gsOuter s.grid s.counts (List.range 9) 0 with
  | .error e => .error e
  | .ok (.inl st) => .ok st
  | .ok (.inr nf) =>
    match boxesPass s.grid quadrants with
    | .error e => .error e
    | .ok (some st) => .ok st
    | .ok none => if nf = NUM_CELLS then .ok .SOLVED else .ok .VALID

/-- Result of the candidate (`digit`) loop of `SudokuSolver::solve` for one
cell: `fail s` = loop left with `solved == false` (the enclosing code then
returns `false`); `solvedNow s` = the `state == SOLVED` immediate
`return true`; `flagged s` = `solved = solve(row, col+1)` succeeded, so the
column loop breaks and the enclosing call returns `solve(row + 1, 0)`. -/
inductive LoopRes where
  | fail : SudokuSolver → LoopRes
  | solvedNow : SudokuSolver → LoopRes
  | flagged : SudokuSolver → LoopRes
deriving DecidableEq, Repr

/-- The `for(auto digit : available_digits(constraints))` loop of
`SudokuSolver::solve` at cell `(row, col)`.  `recur` is the enclosing
recursive `solve` (applied as `solve(row, col + 1)` in the `VALID` branch);
it is passed as a function so that the mutual recursion with `solveAux`
is structural in the fuel. -/
def digitLoop (recur : SudokuSolver → Nat → Nat → Option (Except Err (Bool × SudokuSolver)))
    (s : SudokuSolver) (row col : Nat) :
    List Nat → Option (Except Err LoopRes)
  | [] => some (.ok (.fail s))
  | digit :: rest =>
    if digit = EMPTY_CELL then some (.ok (.fail (set_value s row col EMPTY_CELL)))
    else
      match get_game_state (set_value s row col digit) with
      | .error e => some (.error e)
      | .ok .SOLVED => some (.ok (.solvedNow (set_value s row col digit)))
      | .ok .VALID =>
        match recur (set_value s row col digit) row (col + 1) with
        | none => none
        | some (.error e) => some (.error e)
        | some (.ok (true, s2)) => some (.ok (.flagged s2))
        | some (.ok (false, s2)) =>
          digitLoop recur (set_value s2 row col EMPTY_CELL) row col rest
      | .ok _ =>
        digitLoop recur (set_value (set_value s row col digit) row col EMPTY_CELL)
          row col rest

/-- `SudokuSolver::solve(size_t row, size_t start_col)`.  Fuel-indexed
(`none` = fuel exhausted; fuel sufficiency is proved in
`solveAux_fuel_sufficient`). -/
def solveAux : Nat → SudokuSolver → Nat → Nat → Option (Except Err (Bool × SudokuSolver))
  | 0, _, _, _ => none
  | fuel + 1, s, row, col =>
    if 9 ≤ row then some (.ok (true, s))
    else if 9 ≤ col then solveAux fuel s (row + 1) 0
    else
      if readCell s.grid row col ≠ EMPTY_CELL then solveAux fuel s row (col + 1)
      else
        match digitLoop (solveAux fuel) s row col
            (available_digits (cubeAt s.cube row col)) with
        | none => none
        | some (.error e) => some (.error e)
        | some (.ok (.fail s')) => some (.ok (false, s'))
        | some (.ok (.solvedNow s')) => some (.ok (true, s'))
        | some (.ok (.flagged s')) => solveAux fuel s' (row + 1) 0

/-- The public `solve()`: `solve(0, 0)`, run with enough fuel
(`solveAux_fuel_sufficient` shows 110 units can never run out from
`(0, 0)`). -/
def solve (s : SudokuSolver) : Option (Except Err (Bool × SudokuSolver)) :=
  solveAux 110 s 0 0

/-- The row/column elimination loop of `update_constraint` (the
`for(size_t step ...)` over the cell's row and column), iterating over the
remaining `step` indices and threading the cell's candidate array
`cell_constraints`.  Writes at `digit_to_idx` of the neighbour's value; an
index above 8 (possible only for grid values outside `'0'..'9'`) is the
unchecked-write undefined behaviour, `Err.oob`. -/
def uc_scan (g : List Nat) (x y : Nat) : List Nat → List Bool → Except Err (List Bool)
  | [], cc => .ok cc
  | step :: rest, cc =>
    match (if step ≠ y ∧ readCell g x step ≠ EMPTY_CELL then
             writeSet cc (digit_to_idx (readCell g x step)) false
           else .ok cc) with
    | .error e => .error e
    | .ok cc1 =>
      match (if step ≠ x ∧ readCell g step y ≠ EMPTY_CELL then
               writeSet cc1 (digit_to_idx (readCell g step y)) false
             else .ok cc1) with
      | .error e => .error e
      | .ok cc2 => uc_scan g x y rest cc2

/-- One cell of `update_constraint_from_quadrant`'s scan: clear the
digit's candidate bit if the cell is filled. -/
def quadStep (g : List Nat) (ij : Nat × Nat) (cc : List Bool) : Except Err (List Bool) :=
  if readCell g ij.1 ij.2 ≠ EMPTY_CELL then
    writeSet cc (digit_to_idx (readCell g ij.1 ij.2)) false
  else .ok cc

/-- `update_constraint_from_quadrant`'s 3x3 scan over the closest
quadrant's cells, threading the candidate array. -/
def uc_quad (g : List Nat) : List (Nat × Nat) → List Bool → Except Err (List Bool)
  | [], cc => .ok cc
  | ij :: rest, cc =>
    match quadStep g ij cc with
    | .error e => .error e
    | .ok cc' => uc_quad g rest cc'

/-- `SudokuSolver::update_constraint(x, y)`: a filled cell gets its
candidate set cleared (and keeps its stale count); an empty cell gets the
row/column scan, then the quadrant scan, then the popcount cached into
`constraint_counts_`. -/
def update_constraint (s : SudokuSolver) (x y : Nat) : Except Err SudokuSolver :=
  if readCell s.grid x y ≠ EMPTY_CELL then .ok (setCube s x y (List.replicate 9 false))
  else
    match uc_scan s.grid x y (List.range 9) (cubeAt s.cube x y) with
    | .error e => .error e
    | .ok cc1 =>
      match uc_quad s.grid
          (boxCellList (quadrants.getD (find_closest_quadrant_idx x y) (0, 0))) cc1 with
      | .error e => .error e
      | .ok cc2 => .ok (setCube (setCount s x y (cc2.countP (fun b => b))) x y cc2)

/-- The row-major list of all 81 cell coordinates, the iteration order of
the nested `x`/`y` loops of `update_constraints`. -/
def cellList : List (Nat × Nat) :=
  (List.range 9).flatMap (fun x => (List.range 9).map (fun y => (x, y)))

/-- The nested `x`/`y` loops of `SudokuSolver::update_constraints`,
iterating over the remaining cell coordinates. -/
def update_constraints_aux (s : SudokuSolver) : List (Nat × Nat) → Except Err SudokuSolver
  | [] => .ok s
  | xy :: rest =>
    match update_constraint s xy.1 xy.2 with
    | .error e => .error e
    | .ok s' => update_constraints_aux s' rest

/-- `SudokuSolver::update_constraints()`. -/
def update_constraints (s : SudokuSolver) : Except Err SudokuSolver :=
  update_constraints_aux s cellList

/-- The character-consuming loop of the `SudokuSolver` constructor:
`set_value(x, y++, c)` (checked — on the 82nd character `x = 9` and
`set_cell` throws `invalid_argument` *before* the `num_cells > NUM_CELLS`
check can throw the `range_error`), then the row wrap, then the count
check. -/
def fillLoop (s : SudokuSolver) (x y num_cells : Nat) : List Nat → Except Err SudokuSolver
  | [] => .ok s
  | c :: rest =>
    match set_value_chk s x y c with
    | .error e => .error e
    | .ok s' =>
      let xy : Nat × Nat := if y + 1 = 9 then (x + 1, 0) else (x, y + 1)
      let num_cells' := num_cells + 1
      if NUM_CELLS < num_cells' then .error .rangeError
      else fillLoop s' xy.1 xy.2 num_cells' rest

/-- The all-available constraints cube the constructor starts from
(`col.fill(true)` for every cell). -/
def initCube : List (List (List Bool)) :=
  List.replicate 9 (List.replicate 9 (List.replicate 9 true))

/-- The `SudokuSolver(std::string_view puzzle)` constructor: zero-filled
members (note `grid_{}` zero-initializes the cells to `'\0'` = 0, *not*
to `EMPTY_CELL` = 48), the all-true cube, the character loop, then
`update_constraints()`. -/
def mkSolver (puzzle : List Nat) : Except Err SudokuSolver :=
  let s0 : SudokuSolver :=
    { grid := List.replicate 81 0, counts := List.replicate 81 0, cube := initCube }
  match fillLoop s0 0 0 0 puzzle with
  | .error e => .error e
  | .ok s1 => update_constraints s1

/-- The state constructed from a puzzle, with a dummy fallback for failed
construction (used to phrase closed statements without an existential). -/
def stateOf (p : List Nat) : SudokuSolver :=
  match mkSolver p with
  | .ok s => s
  | .error _ => { grid := [], counts := [], cube := [] }

/-- The values of row `r` of a grid, left to right. -/
def rowVals (g : List Nat) (r : Nat) : List Nat :=
  (List.range 9).map (fun c => readCell g r c)

/-- The values of column `c` of a grid, top to bottom. -/
def colVals (g : List Nat) (c : Nat) : List Nat :=
  (List.range 9).map (fun r => readCell g r c)

/-- The values of box `b` of a grid, in the engine's box scan order. -/
def boxVals (g : List Nat) (b : Nat) : List Nat :=
  (boxCellList (quadrants.getD b (0, 0))).map (fun ij => readCell g ij.1 ij.2)

/-- A list of cell values with no duplicate filled digit. -/
def dupFree (l : List Nat) : Prop :=
  List.Pairwise (fun a b => a ≠ EMPTY_CELL → b ≠ EMPTY_CELL → a ≠ b) l

/-- No row, column or box of the grid contains a duplicate filled digit. -/
def gridDupFree (g : List Nat) : Prop :=
  ∀ k, k < 9 → dupFree (rowVals g k) ∧ dupFree (colVals g k) ∧ dupFree (boxVals g k)

/-- A cell-value list contains each digit `'1'..'9'` exactly once. -/
def eachDigitOnce (l : List Nat) : Prop :=
  ∀ d, d < 9 → l.count (49 + d) = 1

/-- The defining solved-grid property: every row, column and box holds
each digit 1-9 exactly once. -/
def sudokuValid (g : List Nat) : Prop :=
  ∀ k, k < 9 →
    eachDigitOnce (rowVals g k) ∧ eachDigitOnce (colVals g k) ∧ eachDigitOnce (boxVals g k)

/-- Every cell of the grid is filled (distinct from `EMPTY_CELL`). -/
def allFilled (g : List Nat) : Prop :=
  ∀ x y, x < 9 → y < 9 → readCell g x y ≠ EMPTY_CELL

/-- Every cell value of the grid lies in the input alphabet `'0'..'9'`. -/
def alphaGrid (g : List Nat) : Prop :=
  ∀ x y, x < 9 → y < 9 → 48 ≤ readCell g x y ∧ readCell g x y ≤ 57

/-- Every cell at or after `(row, col)` in row-major order is filled. -/
def allFilledFrom (g : List Nat) (row col : Nat) : Prop :=
  ∀ r c, r < 9 → c < 9 → (row < r ∨ (row = r ∧ col ≤ c)) →
    readCell g r c ≠ EMPTY_CELL

lemma getD_set_self {α : Type} (l : List α) (n : Nat) (v d : α) (h : n < l.length) :
    (l.set n v).getD n d = v := by
  induction l generalizing n with
  | nil => simp at h
  | cons a t ih =>
    cases n with
    | zero => simp
    | succ m => simpa using ih m (by simpa using h)

lemma getD_set_ne {α : Type} (l : List α) (n m : Nat) (v d : α) (h : n ≠ m) :
    (l.set n v).getD m d = l.getD m d := by
  induction l generalizing n m with
  | nil => simp
  | cons a t ih =>
    cases n with
    | zero =>
      cases m with
      | zero => exact absurd rfl h
      | succ k => simp
    | succ j =>
      cases m with
      | zero => simp
      | succ k => simpa using ih j k (by omega)

lemma set_getD_self {α : Type} (l : List α) (n : Nat) (v d : α)
    (hv : l.getD n d = v) (h : n < l.length) : l.set n v = l := by
  induction l generalizing n with
  | nil => simp at h
  | cons a t ih =>
    cases n with
    | zero => simp_all
    | succ m =>
      simp only [List.set_cons_succ]
      rw [ih m (by simpa using hv) (by simpa using h)]

lemma length_writeCell (g : List Nat) (x y v : Nat) :
    (writeCell g x y v).length = g.length := by
  simp [writeCell]

lemma readCell_writeCell_self (g : List Nat) (x y v : Nat)
    (h : x * 9 + y < g.length) : readCell (writeCell g x y v) x y = v := by
  simpa [readCell, writeCell] using getD_set_self g (x * 9 + y) v 0 h

lemma cell_index_inj {x y a b : Nat} (hy : y < 9) (hb : b < 9)
    (h : x * 9 + y = a * 9 + b) : x = a ∧ y = b := by omega

lemma readCell_writeCell_ne (g : List Nat) (x y a b v : Nat)
    (hy : y < 9) (hb : b < 9) (hne : ¬(x = a ∧ y = b)) :
    readCell (writeCell g x y v) a b = readCell g a b := by
  have hidx : x * 9 + y ≠ a * 9 + b := by
    intro hc
    exact hne (cell_index_inj hy hb hc)
  simpa [readCell, writeCell] using getD_set_ne g (x * 9 + y) (a * 9 + b) v 0 hidx

lemma writeCell_writeCell (g : List Nat) (x y a b : Nat) :
    writeCell (writeCell g x y a) x y b = writeCell g x y b := by
  simp [writeCell, List.set_set]

lemma writeCell_cancel (g : List Nat) (x y v : Nat)
    (hv : readCell g x y = v) (h : x * 9 + y < g.length) :
    writeCell g x y v = g :=
  set_getD_self g (x * 9 + y) v 0 hv h

lemma digit_to_idx_nine : digit_to_idx 9 = 2 ^ 64 - 40 := by decide

lemma digit_to_idx_nine_ge : ¬ digit_to_idx 9 < 9 := by decide

lemma digit_to_idx_digit {v : Nat} (h49 : 49 ≤ v) (h57 : v ≤ 57) :
    digit_to_idx v = v - 49 := by
  have : v + (2 ^ 64 - 49) = (v - 49) + 2 ^ 64 := by omega
  rw [digit_to_idx, this, Nat.add_mod_right]
  exact Nat.mod_eq_of_lt (by omega)

lemma digit_to_idx_digit_lt {v : Nat} (h49 : 49 ≤ v) (h57 : v ≤ 57) :
    digit_to_idx v < 9 := by
  rw [digit_to_idx_digit h49 h57]
  omega

/-- Every `available_digits` result starts with the stray `char(9)`
element coming from `std::vector<char> digits{SIZE}`, and the remaining
elements are digit characters `'1'..'9'`. -/
lemma available_digits_shape (cc : List Bool) :
    ∃ rest, available_digits cc = 9 :: rest ∧ ∀ d ∈ rest, 49 ≤ d ∧ d ≤ 57 := by
  refine ⟨(List.range 9).filterMap
    (fun i => if cc.getD i false then some (49 + i) else none), ?_, ?_⟩
  · simp [available_digits]
  · intro d hd
    rcases List.mem_filterMap.mp hd with ⟨i, hi, hif⟩
    have hi9 : i < 9 := List.mem_range.mp hi
    by_cases hcc : cc.getD i false = true
    · rw [if_pos hcc] at hif
      cases hif
      omega
    · rw [if_neg hcc] at hif
      cases hif

lemma gsInner_cons (g counts : List Nat) (rc t : Nat) (rest : List Nat)
    (rs cs : List Bool) (nf : Nat) :
    gsInner g counts rc (t :: rest) rs cs nf =
      match rowStep g counts rc t rs nf with
      | .error e => .error e
      | .ok (.inl st) => .ok (.inl st)
      | .ok (.inr (rs', nf')) =>
        match colStep g rc t cs with
        | .error e => .error e
        | .ok (.inl st) => .ok (.inl st)
        | .ok (.inr cs') => gsInner g counts rc rest rs' cs' nf' := rfl

lemma gsOuter_cons (g counts : List Nat) (rc : Nat) (rest : List Nat) (nf : Nat) :
    gsOuter g counts (rc :: rest) nf =
      match gsInner g counts rc (List.range 9)
          (List.replicate 9 false) (List.replicate 9 false) nf with
      | .error e => .error e
      | .ok (.inl st) => .ok (.inl st)
      | .ok (.inr nf') => gsOuter g counts rest nf' := rfl

/-- Reading a cell holding the stray value 9 makes the row half of the
scan hit `row_set[2^64 - 40]`: the out-of-bounds branch. -/
lemma rowStep_nine (g counts : List Nat) (rc step : Nat) (rs : List Bool) (nf : Nat)
    (h : readCell g rc step = 9) : rowStep g counts rc step rs nf = .error .oob := by
  rw [rowStep, h, if_pos (by decide : (9 : Nat) ≠ EMPTY_CELL),
    readSet, if_neg digit_to_idx_nine_ge]

/-- Same for the column half. -/
lemma colStep_nine (g : List Nat) (rc step : Nat) (cs : List Bool)
    (h : readCell g step rc = 9) : colStep g rc step cs = .error .oob := by
  rw [colStep, h, if_pos (by decide : (9 : Nat) ≠ EMPTY_CELL),
    readSet, if_neg digit_to_idx_nine_ge]

/-- If the cell `(pr, pc)` holds 9 and `pc` is still to be scanned, the
inner loop for `row_col = pr` cannot complete. -/
lemma gsInner_nine_row (g counts : List Nat) (pr pc : Nat)
    (h9 : readCell g pr pc = 9) :
    ∀ (steps : List Nat) (rs cs : List Bool) (nf nf' : Nat), pc ∈ steps →
      gsInner g counts pr steps rs cs nf ≠ .ok (.inr nf') := by
  intro steps
  induction steps with
  | nil =>
    intro rs cs nf nf' hmem
    cases hmem
  | cons t rest ih =>
    intro rs cs nf nf' hmem
    by_cases ht : t = pc
    · subst ht
      rw [gsInner_cons, rowStep_nine g counts pr t rs nf h9]
      intro hc
      cases hc
    · have hmem' : pc ∈ rest := by
        rcases List.mem_cons.mp hmem with h | h
        · exact absurd h.symm ht
        · exact h
      rw [gsInner_cons]
      cases hrs : rowStep g counts pr t rs nf with
      | error e => intro hc; cases hc
      | ok v =>
        cases v with
        | inl st => intro hc; cases hc
        | inr p =>
          obtain ⟨rs', nf2⟩ := p
          cases hcs : colStep g pr t cs with
          | error e => intro hc; cases hc
          | ok w =>
            cases w with
            | inl st => intro hc; cases hc
            | inr cs' => exact ih rs' cs' nf2 nf' hmem'

/-- If some in-bounds cell holds 9, the whole row/column pass cannot
complete. -/
lemma gsOuter_nine (g counts : List Nat) (pr pc : Nat)
    (h9 : readCell g pr pc = 9) (hpc : pc < 9) :
    ∀ (rcs : List Nat) (nf nf' : Nat), pr ∈ rcs →
      gsOuter g counts rcs nf ≠ .ok (.inr nf') := by
  intro rcs
  induction rcs with
  | nil =>
    intro nf nf' hmem
    cases hmem
  | cons rc rest ih =>
    intro nf nf' hmem
    rw [gsOuter_cons]
    by_cases hrc : rc = pr
    · subst hrc
      cases hin : gsInner g counts rc (List.range 9)
          (List.replicate 9 false) (List.replicate 9 false) nf with
      | error e => intro hc; cases hc
      | ok v =>
        cases v with
        | inl st => intro hc; cases hc
        | inr nf2 =>
          exact absurd hin
            (gsInner_nine_row g counts rc pc h9 (List.range 9) _ _ nf nf2
              (List.mem_range.mpr hpc))
    · have hmem' : pr ∈ rest := by
        rcases List.mem_cons.mp hmem with h | h
        · exact absurd h.symm hrc
        · exact h
      cases hin : gsInner g counts rc (List.range 9)
          (List.replicate 9 false) (List.replicate 9 false) nf with
      | error e => intro hc; cases hc
      | ok v =>
        cases v with
        | inl st => intro hc; cases hc
        | inr nf2 => exact ih nf2 nf' hmem'

/-- Early returns of the inner loop are only `VIOLATION` or
`NO_CHOICES_FOR_EMPTY_CELL`. -/
lemma gsInner_inl (g counts : List Nat) (rc : Nat) :
    ∀ (steps : List Nat) (rs cs : List Bool) (nf : Nat) (st : GameState),
      gsInner g counts rc steps rs cs nf = .ok (.inl st) →
      st = .VIOLATION ∨ st = .NO_CHOICES_FOR_EMPTY_CELL := by
  intro steps
  induction steps with
  | nil =>
    intro rs cs nf st h
    cases h
  | cons t rest ih =>
    intro rs cs nf st h
    rw [gsInner_cons] at h
    cases hrs : rowStep g counts rc t rs nf with
    | error e => rw [hrs] at h; cases h
    | ok v =>
      cases v with
      | inl st' =>
        rw [hrs] at h
        cases h
        rw [rowStep] at hrs
        by_cases hf : readCell g rc t ≠ EMPTY_CELL
        · rw [if_pos hf] at hrs
          cases hread : readSet rs (digit_to_idx (readCell g rc t)) with
          | error e => rw [hread] at hrs; cases hrs
          | ok b =>
            cases b with
            | true => rw [hread] at hrs; cases hrs; exact Or.inl rfl
            | false => rw [hread] at hrs; cases hrs
        · rw [if_neg hf] at hrs
          by_cases hz : counts.getD (rc * 9 + t) 0 = 0
          · rw [if_pos hz] at hrs; cases hrs; exact Or.inr rfl
          · rw [if_neg hz] at hrs; cases hrs
      | inr p =>
        obtain ⟨rs', nf2⟩ := p
        rw [hrs] at h
        cases hcs : colStep g rc t cs with
        | error e => rw [hcs] at h; cases h
        | ok w =>
          cases w with
          | inl st' =>
            rw [hcs] at h
            cases h
            rw [colStep] at hcs
            by_cases hf : readCell g t rc ≠ EMPTY_CELL
            · rw [if_pos hf] at hcs
              cases hread : readSet cs (digit_to_idx (readCell g t rc)) with
              | error e => rw [hread] at hcs; cases hcs
              | ok b =>
                cases b with
                | true => rw [hread] at hcs; cases hcs; exact Or.inl rfl
                | false => rw [hread] at hcs; cases hcs
            · rw [if_neg hf] at hcs
              cases hcs
          | inr cs' =>
            rw [hcs] at h
            exact ih rs' cs' nf2 st h

/-- Early returns of the outer pass are only `VIOLATION` or
`NO_CHOICES_FOR_EMPTY_CELL`. -/
lemma gsOuter_inl (g counts : List Nat) :
    ∀ (rcs : List Nat) (nf : Nat) (st : GameState),
      gsOuter g counts rcs nf = .ok (.inl st) →
      st = .VIOLATION ∨ st = .NO_CHOICES_FOR_EMPTY_CELL := by
  intro rcs
  induction rcs with
  | nil =>
    intro nf st h
    cases h
  | cons rc rest ih =>
    intro nf st h
    rw [gsOuter_cons] at h
    cases hin : gsInner g counts rc (List.range 9)
        (List.replicate 9 false) (List.replicate 9 false) nf with
    | error e => rw [hin] at h; cases h
    | ok v =>
      cases v with
      | inl st' =>
        rw [hin] at h
        cases h
        exact gsInner_inl g counts rc (List.range 9) _ _ nf st hin
      | inr nf2 =>
        rw [hin] at h
        exact ih nf2 st h

/-- If some in-bounds cell holds the stray value 9, `get_game_state` never
returns `VALID` or `SOLVED` (the full pass would have to read that cell
and go out of bounds). -/
lemma get_game_state_nine (s : SudokuSolver) (pr pc : Nat)
    (hpr : pr < 9) (hpc : pc < 9) (h9 : readCell s.grid pr pc = 9) :
    get_game_state s ≠ .ok .VALID ∧ get_game_state s ≠ .ok .SOLVED := by
  have hmain : ∀ st, get_game_state s = .ok st →
      st = .VIOLATION ∨ st = .NO_CHOICES_FOR_EMPTY_CELL := by
    intro st hgs
    rw [get_game_state] at hgs
    cases hout : gsOuter s.grid s.counts (List.range 9) 0 with
    | error e => rw [hout] at hgs; cases hgs
    | ok v =>
      cases v with
      | inl st' =>
        rw [hout] at hgs
        cases hgs
        exact gsOuter_inl s.grid s.counts (List.range 9) 0 _ hout
      | inr nf =>
        exact absurd hout
          (gsOuter_nine s.grid s.counts pr pc h9 hpc (List.range 9) 0 nf
            (List.mem_range.mpr hpr))
  constructor
  · intro hc
    rcases hmain _ hc with h | h <;> cases h
  · intro hc
    rcases hmain _ hc with h | h <;> cases h

lemma rowStep_congr (g1 g2 counts : List Nat) (rc step : Nat) (rs : List Bool) (nf : Nat)
    (h : readCell g1 rc step = readCell g2 rc step) :
    rowStep g1 counts rc step rs nf = rowStep g2 counts rc step rs nf := by
  rw [rowStep, rowStep, h]

lemma colStep_congr (g1 g2 : List Nat) (rc step : Nat) (cs : List Bool)
    (h : readCell g1 step rc = readCell g2 step rc) :
    colStep g1 rc step cs = colStep g2 rc step cs := by
  rw [colStep, colStep, h]

/-- The inner loop for a `row_col` index that never reads the modified
cell `(pr, pc)` behaves identically on the two grids. -/
lemma gsInner_agree (g1 g2 counts : List Nat) (pr pc rc : Nat)
    (hag : ∀ x y, x < 9 → y < 9 → ¬(x = pr ∧ y = pc) → readCell g1 x y = readCell g2 x y)
    (hrc9 : rc < 9) (hrpr : rc ≠ pr) (hrpc : rc ≠ pc) :
    ∀ (steps : List Nat), (∀ t ∈ steps, t < 9) → ∀ (rs cs : List Bool) (nf : Nat),
      gsInner g1 counts rc steps rs cs nf = gsInner g2 counts rc steps rs cs nf := by
  intro steps
  induction steps with
  | nil => intro _ rs cs nf; rfl
  | cons t rest ih =>
    intro hb rs cs nf
    have ht9 : t < 9 := hb t (List.mem_cons_self t rest)
    have hrow : readCell g1 rc t = readCell g2 rc t :=
      hag rc t hrc9 ht9 (fun hc => hrpr hc.1)
    have hcol : readCell g1 t rc = readCell g2 t rc :=
      hag t rc ht9 hrc9 (fun hc => hrpc hc.2)
    rw [gsInner_cons, gsInner_cons, rowStep_congr g1 g2 counts rc t rs nf hrow,
      colStep_congr g1 g2 rc t cs hcol]
    cases rowStep g2 counts rc t rs nf with
    | error e => rfl
    | ok v =>
      cases v with
      | inl st => rfl
      | inr p =>
        obtain ⟨rs', nf'⟩ := p
        cases colStep g2 rc t cs with
        | error e => rfl
        | ok w =>
          cases w with
          | inl st => rfl
          | inr cs' =>
            exact ih (fun a ha => hb a (List.mem_cons_of_mem t ha)) rs' cs' nf'

/-- If the inner loop for `row_col = rc` completes on `g1`, and `g2` is
`g1` with the still-to-be-scanned cell `(pr, pc)` replaced by 9, then on
`g2` the same loop hits the out-of-bounds branch. -/
lemma gsInner_touch (g1 g2 counts : List Nat) (pr pc rc : Nat)
    (hag : ∀ x y, x < 9 → y < 9 → ¬(x = pr ∧ y = pc) → readCell g1 x y = readCell g2 x y)
    (h9 : readCell g2 pr pc = 9) (hrc9 : rc < 9) :
    ∀ (steps : List Nat), (∀ t ∈ steps, t < 9) →
      ((rc = pr ∧ pc ∈ steps) ∨ (rc = pc ∧ pr ∈ steps)) →
      ∀ (rs cs : List Bool) (nf nf1 : Nat),
        gsInner g1 counts rc steps rs cs nf = .ok (.inr nf1) →
        gsInner g2 counts rc steps rs cs nf = .error .oob := by
  intro steps
  induction steps with
  | nil =>
    intro _ hmem rs cs nf nf1 _
    rcases hmem with ⟨_, h⟩ | ⟨_, h⟩ <;> cases h
  | cons t rest ih =>
    intro hb hmem rs cs nf nf1 h1
    have ht9 : t < 9 := hb t (List.mem_cons_self t rest)
    by_cases hcase : rc = pr ∧ t = pc
    · have h2 : readCell g2 rc t = 9 := by rw [hcase.1, hcase.2]; exact h9
      rw [gsInner_cons, rowStep_nine g2 counts rc t rs nf h2]
    · have hrow : readCell g1 rc t = readCell g2 rc t :=
        hag rc t hrc9 ht9 hcase
      rw [gsInner_cons] at h1
      cases hrs : rowStep g1 counts rc t rs nf with
      | error e => rw [hrs] at h1; cases h1
      | ok v =>
        cases v with
        | inl st => rw [hrs] at h1; cases h1
        | inr p =>
          obtain ⟨rs', nf2⟩ := p
          rw [hrs] at h1
          have hrs2 : rowStep g2 counts rc t rs nf = .ok (.inr (rs', nf2)) := by
            rw [← rowStep_congr g1 g2 counts rc t rs nf hrow]; exact hrs
          by_cases hcase2 : rc = pc ∧ t = pr
          · have h2 : readCell g2 t rc = 9 := by rw [hcase2.1, hcase2.2]; exact h9
            rw [gsInner_cons, hrs2, colStep_nine g2 rc t cs h2]
          · have hcol : readCell g1 t rc = readCell g2 t rc :=
              hag t rc ht9 hrc9 (fun hc => hcase2 ⟨hc.2, hc.1⟩)
            cases hcs : colStep g1 rc t cs with
            | error e => rw [hcs] at h1; cases h1
            | ok w =>
              cases w with
              | inl st => rw [hcs] at h1; cases h1
              | inr cs' =>
                rw [hcs] at h1
                have hcs2 : colStep g2 rc t cs = .ok (.inr cs') := by
                  rw [← colStep_congr g1 g2 rc t cs hcol]; exact hcs
                rw [gsInner_cons, hrs2, hcs2]
                have hmem' : (rc = pr ∧ pc ∈ rest) ∨ (rc = pc ∧ pr ∈ rest) := by
                  rcases hmem with ⟨hrc, hpc⟩ | ⟨hrc, hpr⟩
                  · refine Or.inl ⟨hrc, ?_⟩
                    rcases List.mem_cons.mp hpc with h | h
                    · exact absurd ⟨hrc, h.symm⟩ hcase
                    · exact h
                  · refine Or.inr ⟨hrc, ?_⟩
                    rcases List.mem_cons.mp hpr with h | h
                    · exact absurd ⟨hrc, h.symm⟩ hcase2
                    · exact h
                exact ih (fun a ha => hb a (List.mem_cons_of_mem t ha)) hmem'
                  rs' cs' nf2 nf1 h1

/-- If the whole row/column pass completes on `g1`, then on `g2` (equal to
`g1` except that the in-bounds cell `(pr, pc)` holds 9) the pass hits the
out-of-bounds branch. -/
lemma gsOuter_touch (g1 g2 counts : List Nat) (pr pc : Nat)
    (hag : ∀ x y, x < 9 → y < 9 → ¬(x = pr ∧ y = pc) → readCell g1 x y = readCell g2 x y)
    (h9 : readCell g2 pr pc = 9) (hpr : pr < 9) (hpc : pc < 9) :
    ∀ (rcs : List Nat), (∀ r ∈ rcs, r < 9) → pr ∈ rcs →
      ∀ (nf nfE : Nat), gsOuter g1 counts rcs nf = .ok (.inr nfE) →
        gsOuter g2 counts rcs nf = .error .oob := by
  intro rcs
  induction rcs with
  | nil =>
    intro _ hmem nf nfE _
    cases hmem
  | cons rc rest ih =>
    intro hb hmem nf nfE h1
    have hrc9 : rc < 9 := hb rc (List.mem_cons_self rc rest)
    rw [gsOuter_cons] at h1
    cases hin : gsInner g1 counts rc (List.range 9)
        (List.replicate 9 false) (List.replicate 9 false) nf with
    | error e => rw [hin] at h1; cases h1
    | ok v =>
      cases v with
      | inl st => rw [hin] at h1; cases h1
      | inr nf2 =>
        rw [hin] at h1
        by_cases htouch : rc = pr ∨ rc = pc
        · have hmem9 : (rc = pr ∧ pc ∈ List.range 9) ∨ (rc = pc ∧ pr ∈ List.range 9) := by
            rcases htouch with h | h
            · exact Or.inl ⟨h, List.mem_range.mpr hpc⟩
            · exact Or.inr ⟨h, List.mem_range.mpr hpr⟩
          have herr := gsInner_touch g1 g2 counts pr pc rc hag h9 hrc9
            (List.range 9) (fun t ht => List.mem_range.mp ht) hmem9
            (List.replicate 9 false) (List.replicate 9 false) nf nf2 hin
          rw [gsOuter_cons, herr]
        · push_neg at htouch
          have heq := gsInner_agree g1 g2 counts pr pc rc hag hrc9 htouch.1 htouch.2
            (List.range 9) (fun t ht => List.mem_range.mp ht)
            (List.replicate 9 false) (List.replicate 9 false) nf
          rw [gsOuter_cons, ← heq, hin]
          have hmem' : pr ∈ rest := by
            rcases List.mem_cons.mp hmem with h | h
            · exact absurd h.symm htouch.1
            · exact h
          exact ih (fun a ha => hb a (List.mem_cons_of_mem rc ha)) hmem' nf2 nfE h1

/-- Transfer lemma: if placing some digit at `(pr, pc)` lets
`get_game_state` complete (`VALID` or `SOLVED`), then placing the stray 9
at the same cell must drive it out of bounds.  Contrapositively, once the
9-probe returns `VIOLATION` or `NO_CHOICES_FOR_EMPTY_CELL`, no later digit
can reach `VALID` or `SOLVED`. -/
lemma get_game_state_transfer (s1 s2 : SudokuSolver) (pr pc : Nat)
    (hcounts : s1.counts = s2.counts)
    (hag : ∀ x y, x < 9 → y < 9 → ¬(x = pr ∧ y = pc) →
      readCell s1.grid x y = readCell s2.grid x y)
    (h9 : readCell s2.grid pr pc = 9) (hpr : pr < 9) (hpc : pc < 9)
    (hok : get_game_state s1 = .ok .VALID ∨ get_game_state s1 = .ok .SOLVED) :
    get_game_state s2 = .error .oob := by
  rw [get_game_state] at hok
  cases hout : gsOuter s1.grid s1.counts (List.range 9) 0 with
  | error e =>
    rw [hout] at hok
    rcases hok with hc | hc <;> cases hc
  | ok v =>
    cases v with
    | inl st =>
      rw [hout] at hok
      rcases gsOuter_inl s1.grid s1.counts (List.range 9) 0 st hout with h | h <;>
        subst h <;> rcases hok with hc | hc <;> cases hc
    | inr nf =>
      have herr := gsOuter_touch s1.grid s2.grid s1.counts pr pc hag h9 hpr hpc
        (List.range 9) (fun r hr => List.mem_range.mp hr)
        (List.mem_range.mpr hpr) 0 nf hout
      rw [hcounts] at herr
      rw [get_game_state, herr]

lemma set_value_counts (s : SudokuSolver) (x y v : Nat) :
    (set_value s x y v).counts = s.counts := rfl

lemma set_value_grid (s : SudokuSolver) (x y v : Nat) :
    (set_value s x y v).grid = writeCell s.grid x y v := rfl

lemma set_value_twice (s : SudokuSolver) (x y a b : Nat) :
    set_value (set_value s x y a) x y b = set_value s x y b := by
  simp [set_value, writeCell_writeCell]

lemma set_value_cancel (s : SudokuSolver) (x y : Nat)
    (hv : readCell s.grid x y = EMPTY_CELL) (h : x * 9 + y < s.grid.length) :
    set_value s x y EMPTY_CELL = s := by
  simp [set_value, writeCell_cancel s.grid x y EMPTY_CELL hv h]

lemma digitLoop_nil (recur : SudokuSolver → Nat → Nat → Option (Except Err (Bool × SudokuSolver)))
    (s : SudokuSolver) (row col : Nat) :
    digitLoop recur s row col [] = some (.ok (.fail s)) := rfl

lemma digitLoop_gs_err
    (recur : SudokuSolver → Nat → Nat → Option (Except Err (Bool × SudokuSolver)))
    (s : SudokuSolver) (row col d : Nat) (rest : List Nat) (e : Err)
    (hd : ¬ d = EMPTY_CELL)
    (hgs : get_game_state (set_value s row col d) = .error e) :
    digitLoop recur s row col (d :: rest) = some (.error e) := by
  rw [digitLoop, if_neg hd, hgs]

lemma digitLoop_gs_solved
    (recur : SudokuSolver → Nat → Nat → Option (Except Err (Bool × SudokuSolver)))
    (s : SudokuSolver) (row col d : Nat) (rest : List Nat)
    (hd : ¬ d = EMPTY_CELL)
    (hgs : get_game_state (set_value s row col d) = .ok .SOLVED) :
    digitLoop recur s row col (d :: rest) =
      some (.ok (.solvedNow (set_value s row col d))) := by
  rw [digitLoop, if_neg hd, hgs]

lemma digitLoop_gs_valid
    (recur : SudokuSolver → Nat → Nat → Option (Except Err (Bool × SudokuSolver)))
    (s : SudokuSolver) (row col d : Nat) (rest : List Nat)
    (hd : ¬ d = EMPTY_CELL)
    (hgs : get_game_state (set_value s row col d) = .ok .VALID) :
    digitLoop recur s row col (d :: rest) =
      match recur (set_value s row col d) row (col + 1) with
      | none => none
      | some (.error e) => some (.error e)
      | some (.ok (true, s2)) => some (.ok (.flagged s2))
      | some (.ok (false, s2)) =>
        digitLoop recur (set_value s2 row col EMPTY_CELL) row col rest := by
  rw [digitLoop, if_neg hd, hgs]

lemma digitLoop_gs_reject
    (recur : SudokuSolver → Nat → Nat → Option (Except Err (Bool × SudokuSolver)))
    (s : SudokuSolver) (row col d : Nat) (rest : List Nat)
    (hd : ¬ d = EMPTY_CELL)
    (hgs : get_game_state (set_value s row col d) = .ok .VIOLATION ∨
      get_game_state (set_value s row col d) = .ok .NO_CHOICES_FOR_EMPTY_CELL) :
    digitLoop recur s row col (d :: rest) =
      digitLoop recur (set_value (set_value s row col d) row col EMPTY_CELL)
        row col rest := by
  rcases hgs with hgs | hgs <;> rw [digitLoop, if_neg hd, hgs]

lemma digitLoop_empty_head
    (recur : SudokuSolver → Nat → Nat → Option (Except Err (Bool × SudokuSolver)))
    (s : SudokuSolver) (row col : Nat) (rest : List Nat) :
    digitLoop recur s row col (EMPTY_CELL :: rest) =
      some (.ok (.fail (set_value s row col EMPTY_CELL))) := by
  rw [digitLoop, if_pos rfl]

lemma solveAux_succ (fuel : Nat) (s : SudokuSolver) (row col : Nat) :
    solveAux (fuel + 1) s row col =
      if 9 ≤ row then some (.ok (true, s))
      else if 9 ≤ col then solveAux fuel s (row + 1) 0
      else
        if readCell s.grid row col ≠ EMPTY_CELL then solveAux fuel s row (col + 1)
        else
          match digitLoop (solveAux fuel) s row col
              (available_digits (cubeAt s.cube row col)) with
          | none => none
          | some (.error e) => some (.error e)
          | some (.ok (.fail s')) => some (.ok (false, s'))
          | some (.ok (.solvedNow s')) => some (.ok (true, s'))
          | some (.ok (.flagged s')) => solveAux fuel s' (row + 1) 0 := rfl

/-- Once the opening `char(9)` probe of the candidate loop has been
rejected with `VIOLATION` or `NO_CHOICES_FOR_EMPTY_CELL`, every following
candidate is rejected the same way (the scan never reaches the probed
cell, so the early return replays identically); the loop either fails with
the state fully restored, or propagates an out-of-bounds error.  The
recursive `solve` is never invoked. -/
lemma digitLoop_reject (s : SudokuSolver) (row col : Nat)
    (hrow : row < 9) (hcol : col < 9) (hlen : s.grid.length = 81)
    (hEmpty : readCell s.grid row col = EMPTY_CELL)
    (hprobe : get_game_state (set_value s row col 9) = .ok .VIOLATION ∨
      get_game_state (set_value s row col 9) = .ok .NO_CHOICES_FOR_EMPTY_CELL) :
    ∀ (ds : List Nat)
      (recur : SudokuSolver → Nat → Nat → Option (Except Err (Bool × SudokuSolver))),
      digitLoop recur s row col ds = some (.ok (.fail s)) ∨
      ∃ e, digitLoop recur s row col ds = some (.error e) := by
  intro ds
  induction ds with
  | nil =>
    intro recur
    exact Or.inl (digitLoop_nil recur s row col)
  | cons d rest ih =>
    intro recur
    have hpos : row * 9 + col < s.grid.length := by rw [hlen]; omega
    by_cases hd : d = EMPTY_CELL
    · subst hd
      rw [digitLoop_empty_head, set_value_cancel s row col hEmpty hpos]
      exact Or.inl rfl
    · have hnv : ∀ st, get_game_state (set_value s row col d) = .ok st →
          st ≠ .VALID ∧ st ≠ .SOLVED := by
        intro st hgs
        constructor <;> intro hst <;> subst hst
        · have := get_game_state_transfer (set_value s row col d) (set_value s row col 9)
            row col rfl
            (fun x y hx hy hne => by
              rw [set_value_grid, set_value_grid,
                readCell_writeCell_ne s.grid row col x y d hcol hy
                  (fun hc => hne ⟨hc.1.symm, hc.2.symm⟩),
                readCell_writeCell_ne s.grid row col x y 9 hcol hy
                  (fun hc => hne ⟨hc.1.symm, hc.2.symm⟩)])
            (by rw [set_value_grid]; exact readCell_writeCell_self s.grid row col 9 hpos)
            hrow hcol (Or.inl hgs)
          rcases hprobe with hp | hp <;> rw [this] at hp <;> cases hp
        · have := get_game_state_transfer (set_value s row col d) (set_value s row col 9)
            row col rfl
            (fun x y hx hy hne => by
              rw [set_value_grid, set_value_grid,
                readCell_writeCell_ne s.grid row col x y d hcol hy
                  (fun hc => hne ⟨hc.1.symm, hc.2.symm⟩),
                readCell_writeCell_ne s.grid row col x y 9 hcol hy
                  (fun hc => hne ⟨hc.1.symm, hc.2.symm⟩)])
            (by rw [set_value_grid]; exact readCell_writeCell_self s.grid row col 9 hpos)
            hrow hcol (Or.inr hgs)
          rcases hprobe with hp | hp <;> rw [this] at hp <;> cases hp
      cases hgs : get_game_state (set_value s row col d) with
      | error e =>
        exact Or.inr ⟨e, digitLoop_gs_err recur s row col d rest e hd hgs⟩
      | ok st =>
        have hst := hnv st hgs
        cases st with
        | SOLVED => exact absurd rfl hst.2
        | VALID => exact absurd rfl hst.1
        | VIOLATION =>
          rw [digitLoop_gs_reject recur s row col d rest hd (Or.inl hgs),
            set_value_twice, set_value_cancel s row col hEmpty hpos]
          exact ih recur
        | NO_CHOICES_FOR_EMPTY_CELL =>
          rw [digitLoop_gs_reject recur s row col d rest hd (Or.inr hgs),
            set_value_twice, set_value_cancel s row col hEmpty hpos]
          exact ih recur

/-- Master lemma: whenever the search returns success, the board is
returned exactly as it was, and every cell from the cursor position
onwards (row-major) was already filled.  The candidate loop can never
contribute a successful placement: its opening `char(9)` probe either
drives `get_game_state` out of bounds or is rejected, and after a
rejection every real digit is rejected identically. -/
lemma solveAux_true (fuel : Nat) :
    ∀ (s : SudokuSolver) (row col : Nat) (s' : SudokuSolver),
      s.grid.length = 81 →
      solveAux fuel s row col = some (.ok (true, s')) →
      s' = s ∧ allFilledFrom s.grid row col := by
  induction fuel with
  | zero =>
    intro s row col s' _ h
    cases h
  | succ fuel ih =>
    intro s row col s' hlen h
    rw [solveAux_succ] at h
    by_cases hrow : 9 ≤ row
    · rw [if_pos hrow] at h
      cases h
      refine ⟨rfl, ?_⟩
      intro r c hr hc hpos
      rcases hpos with h1 | ⟨h1, _⟩ <;> omega
    · rw [if_neg hrow] at h
      push_neg at hrow
      by_cases hcol : 9 ≤ col
      · rw [if_pos hcol] at h
        obtain ⟨hs, hf⟩ := ih s (row + 1) 0 s' hlen h
        refine ⟨hs, ?_⟩
        intro r c hr hc hpos
        apply hf r c hr hc
        rcases hpos with h1 | ⟨h1, h2⟩ <;> omega
      · rw [if_neg hcol] at h
        push_neg at hcol
        by_cases hfill : readCell s.grid row col ≠ EMPTY_CELL
        · rw [if_pos hfill] at h
          obtain ⟨hs, hf⟩ := ih s row (col + 1) s' hlen h
          refine ⟨hs, ?_⟩
          intro r c hr hc hpos
          by_cases hrc : r = row ∧ c = col
          · rw [hrc.1, hrc.2]
            exact hfill
          · apply hf r c hr hc
            rcases hpos with h1 | ⟨h1, h2⟩
            · exact Or.inl h1
            · refine Or.inr ⟨h1, ?_⟩
              have : c ≠ col := fun hcc => hrc ⟨h1.symm, hcc⟩
              omega
        · rw [if_neg hfill] at h
          push_neg at hfill
          have hpos9 : row * 9 + col < s.grid.length := by rw [hlen]; omega
          obtain ⟨rest, hshape, _⟩ := available_digits_shape (cubeAt s.cube row col)
          rw [hshape] at h
          have h9read : readCell (set_value s row col 9).grid row col = 9 := by
            rw [set_value_grid]
            exact readCell_writeCell_self s.grid row col 9 hpos9
          cases hgs : get_game_state (set_value s row col 9) with
          | error e =>
            rw [digitLoop_gs_err (solveAux fuel) s row col 9 rest e
              (by decide) hgs] at h
            cases h
          | ok st =>
            cases st with
            | SOLVED =>
              exact absurd hgs
                ((get_game_state_nine (set_value s row col 9) row col hrow hcol h9read).2)
            | VALID =>
              exact absurd hgs
                ((get_game_state_nine (set_value s row col 9) row col hrow hcol h9read).1)
            | VIOLATION =>
              rw [digitLoop_gs_reject (solveAux fuel) s row col 9 rest
                (by decide) (Or.inl hgs), set_value_twice,
                set_value_cancel s row col hfill hpos9] at h
              rcases digitLoop_reject s row col hrow hcol hlen hfill (Or.inl hgs)
                  rest (solveAux fuel) with hdl | ⟨e, hdl⟩ <;> rw [hdl] at h <;> cases h
            | NO_CHOICES_FOR_EMPTY_CELL =>
              rw [digitLoop_gs_reject (solveAux fuel) s row col 9 rest
                (by decide) (Or.inr hgs), set_value_twice,
                set_value_cancel s row col hfill hpos9] at h
              rcases digitLoop_reject s row col hrow hcol hlen hfill (Or.inr hgs)
                  rest (solveAux fuel) with hdl | ⟨e, hdl⟩ <;> rw [hdl] at h <;> cases h

lemma digitLoop_ne_none (fuel row col : Nat)
    (hrec : ∀ s1, solveAux fuel s1 row (col + 1) ≠ none) :
    ∀ (ds : List Nat) (s : SudokuSolver),
      digitLoop (solveAux fuel) s row col ds ≠ none := by
  intro ds
  induction ds with
  | nil =>
    intro s
    rw [digitLoop_nil]
    exact Option.some_ne_none _
  | cons d rest ih =>
    intro s
    by_cases hd : d = EMPTY_CELL
    · subst hd
      rw [digitLoop_empty_head]
      exact Option.some_ne_none _
    · cases hgs : get_game_state (set_value s row col d) with
      | error e =>
        rw [digitLoop_gs_err (solveAux fuel) s row col d rest e hd hgs]
        exact Option.some_ne_none _
      | ok st =>
        cases st with
        | SOLVED =>
          rw [digitLoop_gs_solved (solveAux fuel) s row col d rest hd hgs]
          exact Option.some_ne_none _
        | VALID =>
          rw [digitLoop_gs_valid (solveAux fuel) s row col d rest hd hgs]
          cases hr : solveAux fuel (set_value s row col d) row (col + 1) with
          | none => exact absurd hr (hrec _)
          | some r =>
            cases r with
            | error e => exact Option.some_ne_none _
            | ok p =>
              obtain ⟨b, s2⟩ := p
              cases b with
              | true => exact Option.some_ne_none _
              | false => exact ih (set_value s2 row col EMPTY_CELL)
        | VIOLATION =>
          rw [digitLoop_gs_reject (solveAux fuel) s row col d rest hd (Or.inl hgs)]
          exact ih _
        | NO_CHOICES_FOR_EMPTY_CELL =>
          rw [digitLoop_gs_reject (solveAux fuel) s row col d rest hd (Or.inr hgs)]
          exact ih _

/-- Fuel sufficiency: with fuel at least `(9 - row) * 11 + (10 - col)`,
`solveAux` never runs out (the recursion advances the row-major cursor at
every self-call). -/
lemma solveAux_fuel_sufficient :
    ∀ (fuel : Nat) (s : SudokuSolver) (row col : Nat), col ≤ 9 →
      (9 - row) * 11 + (10 - col) ≤ fuel → solveAux fuel s row col ≠ none := by
  intro fuel
  induction fuel with
  | zero =>
    intro s row col hcol hfuel
    omega
  | succ fuel ih =>
    intro s row col hcol hfuel
    rw [solveAux_succ]
    by_cases hrow : 9 ≤ row
    · rw [if_pos hrow]
      exact Option.some_ne_none _
    · rw [if_neg hrow]
      push_neg at hrow
      by_cases hc9 : 9 ≤ col
      · rw [if_pos hc9]
        exact ih s (row + 1) 0 (by omega) (by omega)
      · rw [if_neg hc9]
        push_neg at hc9
        by_cases hfill : readCell s.grid row col ≠ EMPTY_CELL
        · rw [if_pos hfill]
          exact ih s row (col + 1) (by omega) (by omega)
        · rw [if_neg hfill]
          have hrec : ∀ s1, solveAux fuel s1 row (col + 1) ≠ none :=
            fun s1 => ih s1 row (col + 1) (by omega) (by omega)
          cases hdl : digitLoop (solveAux fuel) s row col
              (available_digits (cubeAt s.cube row col)) with
          | none =>
            exact absurd hdl
              (digitLoop_ne_none fuel row col hrec (available_digits (cubeAt s.cube row col)) s)
          | some r =>
            cases r with
            | error e => exact Option.some_ne_none _
            | ok lr =>
              cases lr with
              | fail s1 => exact Option.some_ne_none _
              | solvedNow s1 => exact Option.some_ne_none _
              | flagged s1 => exact ih s1 (row + 1) 0 (by omega) (by omega)

/-- On a board with every cell filled, the search just skips through all
cells and succeeds with the state untouched. -/
lemma solveAux_skip (fuel : Nat) :
    ∀ (s : SudokuSolver) (row col : Nat), col ≤ 9 →
      (9 - row) * 11 + (10 - col) ≤ fuel →
      (∀ x y, x < 9 → y < 9 → readCell s.grid x y ≠ EMPTY_CELL) →
      solveAux fuel s row col = some (.ok (true, s)) := by
  induction fuel with
  | zero =>
    intro s row col hcol hfuel
    omega
  | succ fuel ih =>
    intro s row col hcol hfuel hall
    rw [solveAux_succ]
    by_cases hrow : 9 ≤ row
    · rw [if_pos hrow]
    · rw [if_neg hrow]
      push_neg at hrow
      by_cases hc9 : 9 ≤ col
      · rw [if_pos hc9]
        exact ih s (row + 1) 0 (by omega) (by omega) hall
      · rw [if_neg hc9]
        push_neg at hc9
        rw [if_pos (hall row col hrow hc9)]
        exact ih s row (col + 1) (by omega) (by omega) hall

/-- `solve()` always yields a result: the fuel never runs out. -/
lemma solve_total (s : SudokuSolver) : solve s ≠ none :=
  solveAux_fuel_sufficient 110 s 0 0 (by omega) (by omega)

/-- `solve()`-level version of the master lemma. -/
lemma solve_true (s s' : SudokuSolver) (hlen : s.grid.length = 81)
    (h : solve s = some (.ok (true, s'))) :
    s' = s ∧ allFilled s.grid := by
  obtain ⟨hs, hf⟩ := solveAux_true 110 s 0 0 s' hlen h
  exact ⟨hs, fun x y hx hy => hf x y hx hy (by omega)⟩

/-- Sequential write of a character list into consecutive grid slots
starting at offset `n` (the effect of the constructor's fill loop). -/
def writeSeq (g : List Nat) (n : Nat) : List Nat → List Nat
  | [] => g
  | c :: rest => writeSeq (g.set n c) (n + 1) rest

lemma writeSeq_length (p : List Nat) :
    ∀ (g : List Nat) (n : Nat), (writeSeq g n p).length = g.length := by
  induction p with
  | nil => intro g n; rfl
  | cons c rest ih =>
    intro g n
    rw [writeSeq, ih (g.set n c) (n + 1), List.length_set]

lemma writeSeq_getD_lo (p : List Nat) :
    ∀ (g : List Nat) (n k : Nat) (d : Nat), k < n →
      (writeSeq g n p).getD k d = g.getD k d := by
  induction p with
  | nil => intro g n k d _; rfl
  | cons c rest ih =>
    intro g n k d hk
    rw [writeSeq, ih (g.set n c) (n + 1) k d (by omega),
      getD_set_ne g n k c d (by omega)]

lemma writeSeq_getD_hi (p : List Nat) :
    ∀ (g : List Nat) (n k : Nat) (d : Nat), n + p.length ≤ k →
      (writeSeq g n p).getD k d = g.getD k d := by
  induction p with
  | nil => intro g n k d _; rfl
  | cons c rest ih =>
    intro g n k d hk
    rw [List.length_cons] at hk
    rw [writeSeq, ih (g.set n c) (n + 1) k d (by omega),
      getD_set_ne g n k c d (by omega)]

lemma writeSeq_getD_mid (p : List Nat) :
    ∀ (g : List Nat) (n k : Nat) (d : Nat), n ≤ k → k < n + p.length → k < g.length →
      (writeSeq g n p).getD k d = p.getD (k - n) d := by
  induction p with
  | nil =>
    intro g n k d h1 h2 _
    rw [List.length_nil] at h2
    omega
  | cons c rest ih =>
    intro g n k d h1 h2 h3
    by_cases hk : k = n
    · subst hk
      rw [writeSeq, writeSeq_getD_lo rest (g.set k c) (k + 1) k d (by omega),
        getD_set_self g k c d h3, Nat.sub_self]
      rfl
    · rw [List.length_cons] at h2
      rw [writeSeq, ih (g.set n c) (n + 1) k d (by omega) (by omega) (by simpa using h3)]
      have : k - n = (k - (n + 1)) + 1 := by omega
      rw [this]
      rfl

lemma getD_replicate_zero (m k : Nat) : (List.replicate m 0).getD k 0 = 0 := by
  induction m generalizing k with
  | zero => cases k <;> rfl
  | succ m ih =>
    cases k with
    | zero => rfl
    | succ j => simp only [List.replicate, List.getD_cons_succ]; exact ih j

lemma getD_mem {α : Type} (l : List α) (n : Nat) (d : α) (h : n < l.length) :
    l.getD n d ∈ l := by
  induction l generalizing n with
  | nil => simp at h
  | cons a t ih =>
    cases n with
    | zero => exact List.mem_cons_self a t
    | succ m => exact List.mem_cons_of_mem a (ih m (by simpa using h))

lemma fillLoop_cons (s : SudokuSolver) (x y n c : Nat) (rest : List Nat) :
    fillLoop s x y n (c :: rest) =
      match set_value_chk s x y c with
      | .error e => .error e
      | .ok s' =>
        if NUM_CELLS < n + 1 then .error .rangeError
        else fillLoop s' (if y + 1 = 9 then (x + 1, 0) else (x, y + 1)).1
          (if y + 1 = 9 then (x + 1, 0) else (x, y + 1)).2 (n + 1) rest := rfl

/-- The constructor's fill loop just writes the characters sequentially
(as long as at most 81 characters arrive). -/
lemma fillLoop_ok (p : List Nat) :
    ∀ (s : SudokuSolver) (x y n : Nat), x * 9 + y = n → y < 9 → n + p.length ≤ 81 →
      fillLoop s x y n p = .ok { s with grid := writeSeq s.grid n p } := by
  induction p with
  | nil =>
    intro s x y n _ _ _
    rfl
  | cons c rest ih =>
    intro s x y n hn hy hlen
    rw [List.length_cons] at hlen
    have hx : x < 9 := by omega
    have hnotbig : ¬ NUM_CELLS < n + 1 := by rw [NUM_CELLS]; omega
    have h1 : set_value_chk s x y c = .ok (set_value s x y c) := by
      rw [set_value_chk, if_neg (by omega)]
    simp only [fillLoop_cons, h1]
    rw [if_neg hnotbig]
    have hgrid : (set_value s x y c).grid = s.grid.set n c := by
      rw [set_value_grid, writeCell, hn]
    by_cases hwrap : y + 1 = 9
    · rw [if_pos hwrap]
      rw [ih (set_value s x y c) (x + 1) 0 (n + 1) (by omega) (by omega) (by omega)]
      rw [set_value, writeCell, hn]
      rfl
    · rw [if_neg hwrap]
      rw [ih (set_value s x y c) x (y + 1) (n + 1) (by omega) (by omega) (by omega)]
      rw [set_value, writeCell, hn]
      rfl

lemma setCube_grid (s : SudokuSolver) (x y : Nat) (l : List Bool) :
    (setCube s x y l).grid = s.grid := rfl

lemma setCube_counts (s : SudokuSolver) (x y : Nat) (l : List Bool) :
    (setCube s x y l).counts = s.counts := rfl

lemma setCount_grid (s : SudokuSolver) (x y n : Nat) :
    (setCount s x y n).grid = s.grid := rfl

lemma update_constraint_filled (s : SudokuSolver) (x y : Nat)
    (h : readCell s.grid x y ≠ EMPTY_CELL) :
    update_constraint s x y = .ok (setCube s x y (List.replicate 9 false)) := by
  rw [update_constraint, if_pos h]

lemma uc_scan_ok (g : List Nat) (x y : Nat) (halpha : alphaGrid g)
    (hx : x < 9) (hy : y < 9) :
    ∀ (steps : List Nat), (∀ t ∈ steps, t < 9) → ∀ (cc : List Bool),
      ∃ cc', uc_scan g x y steps cc = .ok cc' := by
  intro steps
  induction steps with
  | nil =>
    intro _ cc
    exact ⟨cc, rfl⟩
  | cons t rest ih =>
    intro hb cc
    have ht : t < 9 := hb t (List.mem_cons_self t rest)
    have hrow : ∀ cc0 : List Bool,
        ∃ cc1, (if t ≠ y ∧ readCell g x t ≠ EMPTY_CELL then
          writeSet cc0 (digit_to_idx (readCell g x t)) false else .ok cc0) = .ok cc1 := by
      intro cc0
      by_cases hc : t ≠ y ∧ readCell g x t ≠ EMPTY_CELL
      · obtain ⟨ha1, ha2⟩ := halpha x t hx ht
        have hdig : 49 ≤ readCell g x t := by
          rw [EMPTY_CELL] at hc
          omega
        refine ⟨cc0.set (digit_to_idx (readCell g x t)) false, ?_⟩
        rw [if_pos hc, writeSet, if_pos (digit_to_idx_digit_lt hdig ha2)]
      · exact ⟨cc0, by rw [if_neg hc]⟩
    have hcol : ∀ cc0 : List Bool,
        ∃ cc1, (if t ≠ x ∧ readCell g t y ≠ EMPTY_CELL then
          writeSet cc0 (digit_to_idx (readCell g t y)) false else .ok cc0) = .ok cc1 := by
      intro cc0
      by_cases hc : t ≠ x ∧ readCell g t y ≠ EMPTY_CELL
      · obtain ⟨ha1, ha2⟩ := halpha t y ht hy
        have hdig : 49 ≤ readCell g t y := by
          rw [EMPTY_CELL] at hc
          omega
        refine ⟨cc0.set (digit_to_idx (readCell g t y)) false, ?_⟩
        rw [if_pos hc, writeSet, if_pos (digit_to_idx_digit_lt hdig ha2)]
      · exact ⟨cc0, by rw [if_neg hc]⟩
    obtain ⟨cc1, h1⟩ := hrow cc
    obtain ⟨cc2, h2⟩ := hcol cc1
    obtain ⟨cc3, h3⟩ := ih (fun a ha => hb a (List.mem_cons_of_mem t ha)) cc2
    refine ⟨cc3, ?_⟩
    simp only [uc_scan, h1, h2, h3]

lemma uc_quad_cons (g : List Nat) (ij : Nat × Nat) (rest : List (Nat × Nat)) (cc : List Bool) :
    uc_quad g (ij :: rest) cc =
      match quadStep g ij cc with
      | .error e => .error e
      | .ok cc' => uc_quad g rest cc' := rfl

lemma quadStep_ok (g : List Nat) (ij : Nat × Nat) (cc : List Bool)
    (halpha : alphaGrid g) (hij : ij.1 < 9 ∧ ij.2 < 9) :
    ∃ cc', quadStep g ij cc = .ok cc' := by
  by_cases hf : readCell g ij.1 ij.2 ≠ EMPTY_CELL
  · obtain ⟨ha1, ha2⟩ := halpha ij.1 ij.2 hij.1 hij.2
    have hdig : 49 ≤ readCell g ij.1 ij.2 := by
      rw [EMPTY_CELL] at hf
      omega
    refine ⟨cc.set (digit_to_idx (readCell g ij.1 ij.2)) false, ?_⟩
    rw [quadStep, if_pos hf, writeSet, if_pos (digit_to_idx_digit_lt hdig ha2)]
  · exact ⟨cc, by rw [quadStep, if_neg hf]⟩

lemma uc_quad_ok (g : List Nat) (halpha : alphaGrid g) :
    ∀ (cells : List (Nat × Nat)), (∀ ij ∈ cells, ij.1 < 9 ∧ ij.2 < 9) →
      ∀ (cc : List Bool), ∃ cc', uc_quad g cells cc = .ok cc' := by
  intro cells
  induction cells with
  | nil =>
    intro _ cc
    exact ⟨cc, rfl⟩
  | cons ij rest ih =>
    intro hb cc
    obtain ⟨cc1, h1⟩ := quadStep_ok g ij cc halpha (hb ij (List.mem_cons_self _ rest))
    obtain ⟨cc', h'⟩ := ih (fun a ha => hb a (List.mem_cons_of_mem _ ha)) cc1
    refine ⟨cc', ?_⟩
    rw [uc_quad_cons, h1]
    exact h'

lemma fcq_fold_lt (x y : Nat) :
    ∀ (l : List Nat) (acc : Nat × Nat), (∀ i ∈ l, i < 9) → acc.1 < 9 →
      ((l.foldl (fcq_step x y) acc).1 < 9) := by
  intro l
  induction l with
  | nil =>
    intro acc _ hacc
    exact hacc
  | cons i rest ih =>
    intro acc hb hacc
    rw [List.foldl_cons]
    apply ih (fcq_step x y acc i) (fun a ha => hb a (List.mem_cons_of_mem i ha))
    rw [fcq_step]
    by_cases hlt : (max x (quadrants.getD i (0, 0)).1 - min x (quadrants.getD i (0, 0)).1) +
        (max y (quadrants.getD i (0, 0)).2 - min y (quadrants.getD i (0, 0)).2) < acc.2
    · rw [if_pos hlt]
      exact hb i (List.mem_cons_self i rest)
    · rw [if_neg hlt]
      exact hacc

lemma find_closest_lt (x y : Nat) : find_closest_quadrant_idx x y < 9 :=
  fcq_fold_lt x y (List.range 9) (0, 1000) (fun i hi => List.mem_range.mp hi) (by omega)

lemma boxCells_bound :
    ∀ b, b < 9 → ∀ ij ∈ boxCellList (quadrants.getD b (0, 0)), ij.1 < 9 ∧ ij.2 < 9 := by
  decide

lemma update_constraint_ok_alpha (s : SudokuSolver) (x y : Nat)
    (halpha : alphaGrid s.grid) (hx : x < 9) (hy : y < 9) :
    ∃ s', update_constraint s x y = .ok s' ∧ s'.grid = s.grid := by
  by_cases hf : readCell s.grid x y ≠ EMPTY_CELL
  · exact ⟨setCube s x y (List.replicate 9 false),
      update_constraint_filled s x y hf, rfl⟩
  · obtain ⟨cc1, h1⟩ := uc_scan_ok s.grid x y halpha hx hy (List.range 9)
      (fun t ht => List.mem_range.mp ht) (cubeAt s.cube x y)
    obtain ⟨cc2, h2⟩ := uc_quad_ok s.grid halpha
      (boxCellList (quadrants.getD (find_closest_quadrant_idx x y) (0, 0)))
      (boxCells_bound (find_closest_quadrant_idx x y) (find_closest_lt x y)) cc1
    refine ⟨setCube (setCount s x y (cc2.countP (fun b => b))) x y cc2, ?_, rfl⟩
    simp only [update_constraint, if_neg hf, h1, h2]

lemma update_constraints_aux_ok_alpha (cells : List (Nat × Nat)) :
    ∀ (s : SudokuSolver), alphaGrid s.grid → (∀ xy ∈ cells, xy.1 < 9 ∧ xy.2 < 9) →
      ∃ s', update_constraints_aux s cells = .ok s' ∧ s'.grid = s.grid := by
  induction cells with
  | nil =>
    intro s _ _
    exact ⟨s, rfl, rfl⟩
  | cons xy rest ih =>
    intro s halpha hb
    obtain ⟨x, y⟩ := xy
    have hxy := hb (x, y) (List.mem_cons_self _ rest)
    obtain ⟨s1, h1, hg1⟩ := update_constraint_ok_alpha s x y halpha hxy.1 hxy.2
    obtain ⟨s2, h2, hg2⟩ := ih s1 (by rw [hg1]; exact halpha)
      (fun a ha => hb a (List.mem_cons_of_mem _ ha))
    refine ⟨s2, ?_, by rw [hg2, hg1]⟩
    simp only [update_constraints_aux, h1, h2]

lemma update_constraint_ok_filled_keep (s : SudokuSolver) (x y : Nat)
    (hf : readCell s.grid x y ≠ EMPTY_CELL) :
    ∃ s', update_constraint s x y = .ok s' ∧ s'.grid = s.grid ∧ s'.counts = s.counts :=
  ⟨setCube s x y (List.replicate 9 false), update_constraint_filled s x y hf, rfl, rfl⟩

lemma update_constraints_aux_ok_filled (cells : List (Nat × Nat)) :
    ∀ (s : SudokuSolver), (∀ xy ∈ cells, readCell s.grid xy.1 xy.2 ≠ EMPTY_CELL) →
      ∃ s', update_constraints_aux s cells = .ok s' ∧ s'.grid = s.grid ∧
        s'.counts = s.counts := by
  induction cells with
  | nil =>
    intro s _
    exact ⟨s, rfl, rfl, rfl⟩
  | cons xy rest ih =>
    intro s hb
    obtain ⟨x, y⟩ := xy
    obtain ⟨s1, h1, hg1, hc1⟩ := update_constraint_ok_filled_keep s x y
      (hb (x, y) (List.mem_cons_self _ rest))
    obtain ⟨s2, h2, hg2, hc2⟩ := ih s1 (fun a ha => by
      rw [hg1]
      exact hb a (List.mem_cons_of_mem _ ha))
    refine ⟨s2, ?_, by rw [hg2, hg1], by rw [hc2, hc1]⟩
    simp only [update_constraints_aux, h1, h2]

lemma cellList_bound : ∀ xy ∈ cellList, xy.1 < 9 ∧ xy.2 < 9 := by decide

lemma stateOf_eq (p : List Nat) (s : SudokuSolver) (h : mkSolver p = .ok s) :
    stateOf p = s := by
  rw [stateOf, h]

/-- The grid laid down by the constructor: the puzzle written sequentially
over the zero-initialized 81-cell array. -/
def gridOf (p : List Nat) : List Nat :=
  writeSeq (List.replicate 81 0) 0 p

lemma gridOf_length (p : List Nat) : (gridOf p).length = 81 := by
  rw [gridOf, writeSeq_length, List.length_replicate]

lemma gridOf_getD_in (p : List Nat) (k : Nat) (hk : k < p.length) (hk81 : k < 81) :
    (gridOf p).getD k 0 = p.getD k 0 := by
  rw [gridOf, writeSeq_getD_mid p (List.replicate 81 0) 0 k 0 (by omega) (by omega)
    (by rw [List.length_replicate]; omega), Nat.sub_zero]

lemma gridOf_getD_out (p : List Nat) (k : Nat) (hk : p.length ≤ k) :
    (gridOf p).getD k 0 = 0 := by
  rw [gridOf, writeSeq_getD_hi p (List.replicate 81 0) 0 k 0 (by omega),
    getD_replicate_zero]

lemma mkSolver_fill (p : List Nat) (hlen : p.length ≤ 81) :
    mkSolver p = update_constraints
      { grid := gridOf p, counts := List.replicate 81 0, cube := initCube } := by
  have hfl := fillLoop_ok p
    ({ grid := List.replicate 81 0, counts := List.replicate 81 0, cube := initCube })
    0 0 0 (by omega) (by omega) (by omega)
  rw [mkSolver, hfl]
  rfl

/-- Construction succeeds on any 81-character line over `'0'..'9'`, and
the resulting grid is exactly the puzzle. -/
lemma mkSolver_alpha (p : List Nat) (hlen : p.length = 81)
    (halpha : ∀ v ∈ p, 48 ≤ v ∧ v ≤ 57) :
    mkSolver p = .ok (stateOf p) ∧ (stateOf p).grid = gridOf p ∧
    (stateOf p).grid.length = 81 := by
  have hag : alphaGrid (gridOf p) := by
    intro x y hx hy
    have hk : x * 9 + y < 81 := by omega
    rw [readCell, gridOf_getD_in p (x * 9 + y) (by omega) hk]
    exact halpha (p.getD (x * 9 + y) 0) (getD_mem p (x * 9 + y) 0 (by omega))
  obtain ⟨s', hok, hgrid⟩ := update_constraints_aux_ok_alpha cellList
    { grid := gridOf p, counts := List.replicate 81 0, cube := initCube }
    hag cellList_bound
  have hmk : mkSolver p = .ok s' := by
    rw [mkSolver_fill p (by omega), update_constraints]
    exact hok
  have hst := stateOf_eq p s' hmk
  rw [hst]
  exact ⟨hmk, hgrid, by rw [hgrid, gridOf_length]⟩

/-- Construction succeeds on any line shorter than 81 characters over
`'1'..'9'` (every cell being "filled", the refresh never touches a
candidate index), and the uncovered trailing cells keep the
zero-initialized value 0, which is not `EMPTY_CELL`. -/
lemma mkSolver_short (p : List Nat) (hlen : p.length < 81)
    (hdig : ∀ v ∈ p, 49 ≤ v ∧ v ≤ 57) :
    mkSolver p = .ok (stateOf p) ∧ (stateOf p).grid = gridOf p := by
  have hfill : ∀ xy ∈ cellList, readCell (gridOf p) xy.1 xy.2 ≠ EMPTY_CELL := by
    intro xy hxy
    obtain ⟨hx, hy⟩ := cellList_bound xy hxy
    rw [readCell, EMPTY_CELL]
    by_cases hk : xy.1 * 9 + xy.2 < p.length
    · rw [gridOf_getD_in p (xy.1 * 9 + xy.2) hk (by omega)]
      have := hdig (p.getD (xy.1 * 9 + xy.2) 0) (getD_mem p (xy.1 * 9 + xy.2) 0 hk)
      omega
    · rw [gridOf_getD_out p (xy.1 * 9 + xy.2) (by omega)]
      omega
  obtain ⟨s', hok, hgrid, _⟩ := update_constraints_aux_ok_filled cellList
    { grid := gridOf p, counts := List.replicate 81 0, cube := initCube } hfill
  have hmk : mkSolver p = .ok s' := by
    rw [mkSolver_fill p (by omega), update_constraints]
    exact hok
  have hst := stateOf_eq p s' hmk
  rw [hst]
  exact ⟨hmk, hgrid⟩

lemma readSet_ok (rs : List Bool) (i : Nat) (b : Bool) (h : readSet rs i = .ok b) :
    i < 9 ∧ rs.getD i false = b := by
  rw [readSet] at h
  by_cases hi : i < 9
  · rw [if_pos hi] at h
    cases h
    exact ⟨hi, rfl⟩
  · rw [if_neg hi] at h
    cases h

lemma rowStep_inr (g counts : List Nat) (rc t : Nat) (rs : List Bool) (nf : Nat)
    (rs' : List Bool) (nf2 : Nat)
    (h : rowStep g counts rc t rs nf = .ok (.inr (rs', nf2))) :
    (readCell g rc t ≠ EMPTY_CELL ∧ digit_to_idx (readCell g rc t) < 9 ∧
      rs.getD (digit_to_idx (readCell g rc t)) false = false ∧
      rs' = rs.set (digit_to_idx (readCell g rc t)) true) ∨
    (readCell g rc t = EMPTY_CELL ∧ rs' = rs) := by
  rw [rowStep] at h
  by_cases hf : readCell g rc t ≠ EMPTY_CELL
  · rw [if_pos hf] at h
    left
    cases hread : readSet rs (digit_to_idx (readCell g rc t)) with
    | error e => rw [hread] at h; cases h
    | ok b =>
      cases b with
      | true => rw [hread] at h; cases h
      | false =>
        rw [hread] at h
        cases h
        obtain ⟨hi, hv⟩ := readSet_ok rs (digit_to_idx (readCell g rc t)) false hread
        exact ⟨hf, hi, hv, rfl⟩
  · rw [if_neg hf] at h
    push_neg at hf
    by_cases hz : counts.getD (rc * 9 + t) 0 = 0
    · rw [if_pos hz] at h
      cases h
    · rw [if_neg hz] at h
      cases h
      exact Or.inr ⟨hf, rfl⟩

lemma colStep_inr (g : List Nat) (rc t : Nat) (cs cs' : List Bool)
    (h : colStep g rc t cs = .ok (.inr cs')) :
    (readCell g t rc ≠ EMPTY_CELL ∧ digit_to_idx (readCell g t rc) < 9 ∧
      cs.getD (digit_to_idx (readCell g t rc)) false = false ∧
      cs' = cs.set (digit_to_idx (readCell g t rc)) true) ∨
    (readCell g t rc = EMPTY_CELL ∧ cs' = cs) := by
  rw [colStep] at h
  by_cases hf : readCell g t rc ≠ EMPTY_CELL
  · rw [if_pos hf] at h
    left
    cases hread : readSet cs (digit_to_idx (readCell g t rc)) with
    | error e => rw [hread] at h; cases h
    | ok b =>
      cases b with
      | true => rw [hread] at h; cases h
      | false =>
        rw [hread] at h
        cases h
        obtain ⟨hi, hv⟩ := readSet_ok cs (digit_to_idx (readCell g t rc)) false hread
        exact ⟨hf, hi, hv, rfl⟩
  · rw [if_neg hf] at h
    push_neg at hf
    cases h
    exact Or.inr ⟨hf, rfl⟩

lemma boxStep_inr (g : List Nat) (ij : Nat × Nat) (qs qs' : List Bool)
    (h : boxStep g ij qs = .ok (.inr qs')) :
    (readCell g ij.1 ij.2 ≠ EMPTY_CELL ∧ digit_to_idx (readCell g ij.1 ij.2) < 9 ∧
      qs.getD (digit_to_idx (readCell g ij.1 ij.2)) false = false ∧
      qs' = qs.set (digit_to_idx (readCell g ij.1 ij.2)) true) ∨
    (readCell g ij.1 ij.2 = EMPTY_CELL ∧ qs' = qs) := by
  rw [boxStep] at h
  by_cases hf : readCell g ij.1 ij.2 ≠ EMPTY_CELL
  · rw [if_pos hf] at h
    left
    cases hread : readSet qs (digit_to_idx (readCell g ij.1 ij.2)) with
    | error e => rw [hread] at h; cases h
    | ok b =>
      cases b with
      | true => rw [hread] at h; cases h
      | false =>
        rw [hread] at h
        cases h
        obtain ⟨hi, hv⟩ := readSet_ok qs (digit_to_idx (readCell g ij.1 ij.2)) false hread
        exact ⟨hf, hi, hv, rfl⟩
  · rw [if_neg hf] at h
    push_neg at hf
    cases h
    exact Or.inr ⟨hf, rfl⟩

/-- If the inner loop completes for `row_col = rc`, the filled cells of
row `rc` (at the remaining steps) have pairwise distinct digit indices
none of which is already marked in `row_set`, and likewise for column
`rc` against `col_set`. -/
lemma gsInner_inr_nodup (g counts : List Nat) (rc : Nat) :
    ∀ (steps : List Nat) (rs cs : List Bool) (nf nf' : Nat),
      gsInner g counts rc steps rs cs nf = .ok (.inr nf') →
      rs.length = 9 → cs.length = 9 →
      (∀ a ∈ steps, readCell g rc a ≠ EMPTY_CELL →
        rs.getD (digit_to_idx (readCell g rc a)) false = false) ∧
      List.Pairwise (fun a b => readCell g rc a ≠ EMPTY_CELL →
        readCell g rc b ≠ EMPTY_CELL →
        digit_to_idx (readCell g rc a) ≠ digit_to_idx (readCell g rc b)) steps ∧
      (∀ a ∈ steps, readCell g a rc ≠ EMPTY_CELL →
        cs.getD (digit_to_idx (readCell g a rc)) false = false) ∧
      List.Pairwise (fun a b => readCell g a rc ≠ EMPTY_CELL →
        readCell g b rc ≠ EMPTY_CELL →
        digit_to_idx (readCell g a rc) ≠ digit_to_idx (readCell g b rc)) steps := by
  intro steps
  induction steps with
  | nil =>
    intro rs cs nf nf' _ _ _
    exact ⟨fun a ha => absurd ha (List.not_mem_nil a), List.Pairwise.nil,
      fun a ha => absurd ha (List.not_mem_nil a), List.Pairwise.nil⟩
  | cons t rest ih =>
    intro rs cs nf nf' h hrsl hcsl
    rw [gsInner_cons] at h
    cases hrs : rowStep g counts rc t rs nf with
    | error e => rw [hrs] at h; cases h
    | ok v =>
      cases v with
      | inl st => rw [hrs] at h; cases h
      | inr p =>
        obtain ⟨rs1, nf1⟩ := p
        rw [hrs] at h
        cases hcs : colStep g rc t cs with
        | error e => rw [hcs] at h; cases h
        | ok w =>
          cases w with
          | inl st => rw [hcs] at h; cases h
          | inr cs1 =>
            rw [hcs] at h
            have hrowc := rowStep_inr g counts rc t rs nf rs1 nf1 hrs
            have hcolc := colStep_inr g rc t cs cs1 hcs
            have hrs1l : rs1.length = 9 := by
              rcases hrowc with ⟨_, _, _, hset⟩ | ⟨_, hset⟩ <;>
                rw [hset] <;> simp [hrsl]
            have hcs1l : cs1.length = 9 := by
              rcases hcolc with ⟨_, _, _, hset⟩ | ⟨_, hset⟩ <;>
                rw [hset] <;> simp [hcsl]
            obtain ⟨mrow, prow, mcol, pcol⟩ := ih rs1 cs1 nf1 nf' h hrs1l hcs1l
            have hrowback : ∀ a ∈ rest, readCell g rc a ≠ EMPTY_CELL →
                rs.getD (digit_to_idx (readCell g rc a)) false = false ∧
                (readCell g rc t ≠ EMPTY_CELL →
                  digit_to_idx (readCell g rc a) ≠ digit_to_idx (readCell g rc t)) := by
              intro a ha hfa
              have h1 := mrow a ha hfa
              rcases hrowc with ⟨hft, hit, hvt, hset⟩ | ⟨hft, hset⟩
              · rw [hset] at h1
                by_cases hii : digit_to_idx (readCell g rc a) = digit_to_idx (readCell g rc t)
                · rw [hii, getD_set_self rs (digit_to_idx (readCell g rc t)) true false
                    (by omega)] at h1
                  cases h1
                · refine ⟨?_, fun _ => hii⟩
                  rw [getD_set_ne rs (digit_to_idx (readCell g rc t))
                    (digit_to_idx (readCell g rc a)) true false (fun hc => hii hc.symm)] at h1
                  exact h1
              · rw [hset] at h1
                exact ⟨h1, fun hft' => absurd hft hft'⟩
            have hcolback : ∀ a ∈ rest, readCell g a rc ≠ EMPTY_CELL →
                cs.getD (digit_to_idx (readCell g a rc)) false = false ∧
                (readCell g t rc ≠ EMPTY_CELL →
                  digit_to_idx (readCell g a rc) ≠ digit_to_idx (readCell g t rc)) := by
              intro a ha hfa
              have h1 := mcol a ha hfa
              rcases hcolc with ⟨hft, hit, hvt, hset⟩ | ⟨hft, hset⟩
              · rw [hset] at h1
                by_cases hii : digit_to_idx (readCell g a rc) = digit_to_idx (readCell g t rc)
                · rw [hii, getD_set_self cs (digit_to_idx (readCell g t rc)) true false
                    (by omega)] at h1
                  cases h1
                · refine ⟨?_, fun _ => hii⟩
                  rw [getD_set_ne cs (digit_to_idx (readCell g t rc))
                    (digit_to_idx (readCell g a rc)) true false (fun hc => hii hc.symm)] at h1
                  exact h1
              · rw [hset] at h1
                exact ⟨h1, fun hft' => absurd hft hft'⟩
            refine ⟨?_, ?_, ?_, ?_⟩
            · intro a ha hfa
              rcases List.mem_cons.mp ha with hat | har
              · subst hat
                rcases hrowc with ⟨hft, hit, hvt, hset⟩ | ⟨hft, hset⟩
                · exact hvt
                · exact absurd hft hfa
              · exact (hrowback a har hfa).1
            · rw [List.pairwise_cons]
              exact ⟨fun a ha hft hfa => ((hrowback a ha hfa).2 hft).symm, prow⟩
            · intro a ha hfa
              rcases List.mem_cons.mp ha with hat | har
              · subst hat
                rcases hcolc with ⟨hft, hit, hvt, hset⟩ | ⟨hft, hset⟩
                · exact hvt
                · exact absurd hft hfa
              · exact (hcolback a har hfa).1
            · rw [List.pairwise_cons]
              exact ⟨fun a ha hft hfa => ((hcolback a ha hfa).2 hft).symm, pcol⟩

lemma boxInner_cons (g : List Nat) (ij : Nat × Nat) (rest : List (Nat × Nat))
    (qs : List Bool) :
    boxInner g (ij :: rest) qs =
      match boxStep g ij qs with
      | .error e => .error e
      | .ok (.inl st) => .ok (some st)
      | .ok (.inr qs') => boxInner g rest qs' := rfl

/-- If one box scan completes without a violation, its filled cells have
pairwise distinct digit indices, none already marked in `quadrant_set`. -/
lemma boxInner_none_nodup (g : List Nat) :
    ∀ (cells : List (Nat × Nat)) (qs : List Bool),
      boxInner g cells qs = .ok none → qs.length = 9 →
      (∀ ij ∈ cells, readCell g ij.1 ij.2 ≠ EMPTY_CELL →
        qs.getD (digit_to_idx (readCell g ij.1 ij.2)) false = false) ∧
      List.Pairwise (fun ij kl => readCell g ij.1 ij.2 ≠ EMPTY_CELL →
        readCell g kl.1 kl.2 ≠ EMPTY_CELL →
        digit_to_idx (readCell g ij.1 ij.2) ≠ digit_to_idx (readCell g kl.1 kl.2)) cells := by
  intro cells
  induction cells with
  | nil =>
    intro qs _ _
    exact ⟨fun a ha => absurd ha (List.not_mem_nil a), List.Pairwise.nil⟩
  | cons ij rest ih =>
    intro qs h hqsl
    rw [boxInner_cons] at h
    cases hbs : boxStep g ij qs with
    | error e => rw [hbs] at h; cases h
    | ok v =>
      cases v with
      | inl st => rw [hbs] at h; cases h
      | inr qs1 =>
        rw [hbs] at h
        have hc := boxStep_inr g ij qs qs1 hbs
        have hqs1l : qs1.length = 9 := by
          rcases hc with ⟨_, _, _, hset⟩ | ⟨_, hset⟩ <;> rw [hset] <;> simp [hqsl]
        obtain ⟨mbox, pbox⟩ := ih qs1 h hqs1l
        have hback : ∀ kl ∈ rest, readCell g kl.1 kl.2 ≠ EMPTY_CELL →
            qs.getD (digit_to_idx (readCell g kl.1 kl.2)) false = false ∧
            (readCell g ij.1 ij.2 ≠ EMPTY_CELL →
              digit_to_idx (readCell g kl.1 kl.2) ≠ digit_to_idx (readCell g ij.1 ij.2)) := by
          intro kl hkl hfkl
          have h1 := mbox kl hkl hfkl
          rcases hc with ⟨hft, hit, hvt, hset⟩ | ⟨hft, hset⟩
          · rw [hset] at h1
            by_cases hii : digit_to_idx (readCell g kl.1 kl.2) =
                digit_to_idx (readCell g ij.1 ij.2)
            · rw [hii, getD_set_self qs (digit_to_idx (readCell g ij.1 ij.2)) true false
                (by omega)] at h1
              cases h1
            · refine ⟨?_, fun _ => hii⟩
              rw [getD_set_ne qs (digit_to_idx (readCell g ij.1 ij.2))
                (digit_to_idx (readCell g kl.1 kl.2)) true false
                (fun hc' => hii hc'.symm)] at h1
              exact h1
          · rw [hset] at h1
            exact ⟨h1, fun hft' => absurd hft hft'⟩
        refine ⟨?_, ?_⟩
        · intro kl hkl hfkl
          rcases List.mem_cons.mp hkl with hat | har
          · subst hat
            rcases hc with ⟨hft, hit, hvt, hset⟩ | ⟨hft, hset⟩
            · exact hvt
            · exact absurd hft hfkl
          · exact (hback kl har hfkl).1
        · rw [List.pairwise_cons]
          exact ⟨fun kl hkl hft hfkl => ((hback kl hkl hfkl).2 hft).symm, pbox⟩

/-- Completion decomposition: if the outer pass completes, every inner
scan (from the fresh all-false sets) completes. -/
lemma gsOuter_inr_decomp (g counts : List Nat) :
    ∀ (rcs : List Nat) (nf nfE : Nat), gsOuter g counts rcs nf = .ok (.inr nfE) →
      ∀ rc ∈ rcs, ∃ nf1 nf2,
        gsInner g counts rc (List.range 9)
          (List.replicate 9 false) (List.replicate 9 false) nf1 = .ok (.inr nf2) := by
  intro rcs
  induction rcs with
  | nil =>
    intro nf nfE _ rc hrc
    cases hrc
  | cons r rest ih =>
    intro nf nfE h rc hrc
    rw [gsOuter_cons] at h
    cases hin : gsInner g counts r (List.range 9)
        (List.replicate 9 false) (List.replicate 9 false) nf with
    | error e => rw [hin] at h; cases h
    | ok v =>
      cases v with
      | inl st => rw [hin] at h; cases h
      | inr nf2 =>
        rw [hin] at h
        rcases List.mem_cons.mp hrc with hr | hr
        · subst hr
          exact ⟨nf, nf2, hin⟩
        · exact ih nf2 nfE h rc hr

lemma boxesPass_cons (g : List Nat) (q : Nat × Nat) (qs : List (Nat × Nat)) :
    boxesPass g (q :: qs) =
      match boxInner g (boxCellList q) (List.replicate 9 false) with
      | .error e => .error e
      | .ok (some st) => .ok (some st)
      | .ok none => boxesPass g qs := rfl

lemma boxesPass_none_decomp (g : List Nat) :
    ∀ (qs : List (Nat × Nat)), boxesPass g qs = .ok none →
      ∀ q ∈ qs, boxInner g (boxCellList q) (List.replicate 9 false) = .ok none := by
  intro qs
  induction qs with
  | nil =>
    intro _ q hq
    cases hq
  | cons q0 rest ih =>
    intro h q hq
    rw [boxesPass_cons] at h
    cases hin : boxInner g (boxCellList q0) (List.replicate 9 false) with
    | error e => rw [hin] at h; cases h
    | ok v =>
      cases v with
      | some st => rw [hin] at h; cases h
      | none =>
        rw [hin] at h
        rcases List.mem_cons.mp hq with hr | hr
        · subst hr
          exact hin
        · exact ih h q hr

lemma boxStep_inl (g : List Nat) (ij : Nat × Nat) (qs : List Bool) (st : GameState)
    (h : boxStep g ij qs = .ok (.inl st)) : st = .VIOLATION := by
  rw [boxStep] at h
  by_cases hf : readCell g ij.1 ij.2 ≠ EMPTY_CELL
  · rw [if_pos hf] at h
    cases hread : readSet qs (digit_to_idx (readCell g ij.1 ij.2)) with
    | error e => rw [hread] at h; cases h
    | ok b =>
      cases b with
      | true => rw [hread] at h; cases h; rfl
      | false => rw [hread] at h; cases h
  · rw [if_neg hf] at h
    cases h

lemma boxInner_some (g : List Nat) :
    ∀ (cells : List (Nat × Nat)) (qs : List Bool) (st : GameState),
      boxInner g cells qs = .ok (some st) → st = .VIOLATION := by
  intro cells
  induction cells with
  | nil =>
    intro qs st h
    cases h
  | cons ij rest ih =>
    intro qs st h
    rw [boxInner_cons] at h
    cases hbs : boxStep g ij qs with
    | error e => rw [hbs] at h; cases h
    | ok v =>
      cases v with
      | inl st' =>
        rw [hbs] at h
        cases h
        exact boxStep_inl g ij qs _ hbs
      | inr qs1 =>
        rw [hbs] at h
        exact ih qs1 st h

lemma boxesPass_some (g : List Nat) :
    ∀ (qs : List (Nat × Nat)) (st : GameState),
      boxesPass g qs = .ok (some st) → st = .VIOLATION := by
  intro qs
  induction qs with
  | nil =>
    intro st h
    cases h
  | cons q rest ih =>
    intro st h
    rw [boxesPass_cons] at h
    cases hin : boxInner g (boxCellList q) (List.replicate 9 false) with
    | error e => rw [hin] at h; cases h
    | ok v =>
      cases v with
      | some st' =>
        rw [hin] at h
        cases h
        exact boxInner_some g (boxCellList q) (List.replicate 9 false) _ hin
      | none =>
        rw [hin] at h
        exact ih st h

/-- A `VALID` or `SOLVED` verdict means both the row/column pass and the
box pass ran to completion. -/
lemma gs_complete (s : SudokuSolver)
    (h : get_game_state s = .ok .VALID ∨ get_game_state s = .ok .SOLVED) :
    (∃ nf, gsOuter s.grid s.counts (List.range 9) 0 = .ok (.inr nf)) ∧
    boxesPass s.grid quadrants = .ok none := by
  cases hout : gsOuter s.grid s.counts (List.range 9) 0 with
  | error e =>
    rcases h with h | h <;> rw [get_game_state, hout] at h <;> cases h
  | ok v =>
    cases v with
    | inl st =>
      exfalso
      rcases gsOuter_inl s.grid s.counts (List.range 9) 0 st hout with hv | hv <;>
        subst hv <;> rcases h with h | h <;> rw [get_game_state, hout] at h <;> cases h
    | inr nf =>
      cases hbox : boxesPass s.grid quadrants with
      | error e =>
        rcases h with h | h <;> rw [get_game_state, hout, hbox] at h <;> cases h
      | ok o =>
        cases o with
        | some st =>
          exfalso
          have hv := boxesPass_some s.grid quadrants st hbox
          subst hv
          rcases h with h | h <;> rw [get_game_state, hout, hbox] at h <;> cases h
        | none => exact ⟨⟨nf, rfl⟩, rfl⟩

lemma quadrants_length : quadrants.length = 9 := rfl

/-- Completion of both passes forces every row, column and box to be free
of duplicate filled digits. -/
lemma gs_complete_dupFree (s : SudokuSolver)
    (h : get_game_state s = .ok .VALID ∨ get_game_state s = .ok .SOLVED) :
    gridDupFree s.grid := by
  obtain ⟨⟨nf, hout⟩, hbox⟩ := gs_complete s h
  intro k hk
  obtain ⟨nf1, nf2, hin⟩ := gsOuter_inr_decomp s.grid s.counts (List.range 9) 0 nf hout
    k (List.mem_range.mpr hk)
  obtain ⟨_, prow, _, pcol⟩ := gsInner_inr_nodup s.grid s.counts k (List.range 9)
    (List.replicate 9 false) (List.replicate 9 false) nf1 nf2 hin
    (List.length_replicate 9 false) (List.length_replicate 9 false)
  have hbin := boxesPass_none_decomp s.grid quadrants hbox
    (quadrants.getD k (0, 0)) (getD_mem quadrants k (0, 0) (by rw [quadrants_length]; omega))
  obtain ⟨_, pbox⟩ := boxInner_none_nodup s.grid
    (boxCellList (quadrants.getD k (0, 0))) (List.replicate 9 false) hbin
    (List.length_replicate 9 false)
  refine ⟨?_, ?_, ?_⟩
  · rw [dupFree, rowVals, List.pairwise_map]
    exact prow.imp (fun {a b} hab hfa hfb hv => hab hfa hfb (by rw [hv]))
  · rw [dupFree, colVals, List.pairwise_map]
    exact pcol.imp (fun {a b} hab hfa hfb hv => hab hfa hfb (by rw [hv]))
  · rw [dupFree, boxVals, List.pairwise_map]
    exact pbox.imp (fun {a b} hab hfa hfb hv => hab hfa hfb (by rw [hv]))

lemma rowStep_ok_alpha (g counts : List Nat) (rc t : Nat) (rs : List Bool) (nf : Nat)
    (ha : 48 ≤ readCell g rc t ∧ readCell g rc t ≤ 57) :
    ∃ r, rowStep g counts rc t rs nf = .ok r := by
  by_cases hf : readCell g rc t ≠ EMPTY_CELL
  · have h49 : 49 ≤ readCell g rc t := by
      rw [EMPTY_CELL] at hf
      omega
    rw [rowStep, if_pos hf, readSet, if_pos (digit_to_idx_digit_lt h49 ha.2)]
    cases rs.getD (digit_to_idx (readCell g rc t)) false with
    | true => exact ⟨.inl .VIOLATION, rfl⟩
    | false => exact ⟨_, rfl⟩
  · rw [rowStep, if_neg hf]
    by_cases hz : counts.getD (rc * 9 + t) 0 = 0
    · rw [if_pos hz]
      exact ⟨_, rfl⟩
    · rw [if_neg hz]
      exact ⟨_, rfl⟩

lemma colStep_ok_alpha (g : List Nat) (rc t : Nat) (cs : List Bool)
    (ha : 48 ≤ readCell g t rc ∧ readCell g t rc ≤ 57) :
    ∃ r, colStep g rc t cs = .ok r := by
  by_cases hf : readCell g t rc ≠ EMPTY_CELL
  · have h49 : 49 ≤ readCell g t rc := by
      rw [EMPTY_CELL] at hf
      omega
    rw [colStep, if_pos hf, readSet, if_pos (digit_to_idx_digit_lt h49 ha.2)]
    cases cs.getD (digit_to_idx (readCell g t rc)) false with
    | true => exact ⟨.inl .VIOLATION, rfl⟩
    | false => exact ⟨_, rfl⟩
  · rw [colStep, if_neg hf]
    exact ⟨_, rfl⟩

lemma gsInner_ok_alpha (g counts : List Nat) (rc : Nat) (halpha : alphaGrid g)
    (hrc : rc < 9) :
    ∀ (steps : List Nat), (∀ t ∈ steps, t < 9) → ∀ (rs cs : List Bool) (nf : Nat),
      ∃ r, gsInner g counts rc steps rs cs nf = .ok r := by
  intro steps
  induction steps with
  | nil =>
    intro _ rs cs nf
    exact ⟨_, rfl⟩
  | cons t rest ih =>
    intro hb rs cs nf
    have ht : t < 9 := hb t (List.mem_cons_self t rest)
    obtain ⟨r1, h1⟩ := rowStep_ok_alpha g counts rc t rs nf (halpha rc t hrc ht)
    cases r1 with
    | inl st =>
      exact ⟨.inl st, by rw [gsInner_cons, h1]⟩
    | inr p =>
      obtain ⟨rs1, nf1⟩ := p
      obtain ⟨r2, h2⟩ := colStep_ok_alpha g rc t cs (halpha t rc ht hrc)
      cases r2 with
      | inl st =>
        exact ⟨.inl st, by rw [gsInner_cons, h1, h2]⟩
      | inr cs1 =>
        obtain ⟨r3, h3⟩ := ih (fun a ha => hb a (List.mem_cons_of_mem t ha)) rs1 cs1 nf1
        exact ⟨r3, by rw [gsInner_cons, h1, h2]; exact h3⟩

lemma gsOuter_ok_alpha (g counts : List Nat) (halpha : alphaGrid g) :
    ∀ (rcs : List Nat), (∀ r ∈ rcs, r < 9) → ∀ (nf : Nat),
      ∃ r, gsOuter g counts rcs nf = .ok r := by
  intro rcs
  induction rcs with
  | nil =>
    intro _ nf
    exact ⟨_, rfl⟩
  | cons rc rest ih =>
    intro hb nf
    obtain ⟨r1, h1⟩ := gsInner_ok_alpha g counts rc halpha
      (hb rc (List.mem_cons_self rc rest)) (List.range 9)
      (fun t ht => List.mem_range.mp ht) (List.replicate 9 false)
      (List.replicate 9 false) nf
    cases r1 with
    | inl st => exact ⟨.inl st, by rw [gsOuter_cons, h1]⟩
    | inr nf1 =>
      obtain ⟨r2, h2⟩ := ih (fun a ha => hb a (List.mem_cons_of_mem rc ha)) nf1
      exact ⟨r2, by rw [gsOuter_cons, h1]; exact h2⟩

lemma boxStep_ok_alpha (g : List Nat) (ij : Nat × Nat) (qs : List Bool)
    (ha : 48 ≤ readCell g ij.1 ij.2 ∧ readCell g ij.1 ij.2 ≤ 57) :
    ∃ r, boxStep g ij qs = .ok r := by
  by_cases hf : readCell g ij.1 ij.2 ≠ EMPTY_CELL
  · have h49 : 49 ≤ readCell g ij.1 ij.2 := by
      rw [EMPTY_CELL] at hf
      omega
    rw [boxStep, if_pos hf, readSet, if_pos (digit_to_idx_digit_lt h49 ha.2)]
    cases qs.getD (digit_to_idx (readCell g ij.1 ij.2)) false with
    | true => exact ⟨.inl .VIOLATION, rfl⟩
    | false => exact ⟨_, rfl⟩
  · rw [boxStep, if_neg hf]
    exact ⟨_, rfl⟩

lemma boxInner_ok_alpha (g : List Nat) (halpha : alphaGrid g) :
    ∀ (cells : List (Nat × Nat)), (∀ ij ∈ cells, ij.1 < 9 ∧ ij.2 < 9) →
      ∀ (qs : List Bool), ∃ r, boxInner g cells qs = .ok r := by
  intro cells
  induction cells with
  | nil =>
    intro _ qs
    exact ⟨_, rfl⟩
  | cons ij rest ih =>
    intro hb qs
    have hij := hb ij (List.mem_cons_self ij rest)
    obtain ⟨r1, h1⟩ := boxStep_ok_alpha g ij qs (halpha ij.1 ij.2 hij.1 hij.2)
    cases r1 with
    | inl st => exact ⟨some st, by rw [boxInner_cons, h1]⟩
    | inr qs1 =>
      obtain ⟨r2, h2⟩ := ih (fun a ha => hb a (List.mem_cons_of_mem ij ha)) qs1
      exact ⟨r2, by rw [boxInner_cons, h1]; exact h2⟩

lemma boxCells_bound_mem :
    ∀ q ∈ quadrants, ∀ ij ∈ boxCellList q, ij.1 < 9 ∧ ij.2 < 9 := by decide

lemma boxesPass_ok_alpha (g : List Nat) (halpha : alphaGrid g) :
    ∀ (qs : List (Nat × Nat)), (∀ q ∈ qs, ∀ ij ∈ boxCellList q, ij.1 < 9 ∧ ij.2 < 9) →
      ∃ r, boxesPass g qs = .ok r := by
  intro qs
  induction qs with
  | nil =>
    intro _
    exact ⟨_, rfl⟩
  | cons q rest ih =>
    intro hb
    obtain ⟨r1, h1⟩ := boxInner_ok_alpha g halpha (boxCellList q)
      (hb q (List.mem_cons_self q rest)) (List.replicate 9 false)
    cases r1 with
    | some st => exact ⟨some st, by rw [boxesPass_cons, h1]⟩
    | none =>
      obtain ⟨r2, h2⟩ := ih (fun a ha => hb a (List.mem_cons_of_mem q ha))
      exact ⟨r2, by rw [boxesPass_cons, h1]; exact h2⟩

/-- On a grid over the input alphabet `'0'..'9'`, `get_game_state` never
goes out of bounds: it returns some `GameState`. -/
lemma get_game_state_ok_alpha (s : SudokuSolver) (halpha : alphaGrid s.grid) :
    ∃ st, get_game_state s = .ok st := by
  obtain ⟨r1, h1⟩ := gsOuter_ok_alpha s.grid s.counts halpha (List.range 9)
    (fun t ht => List.mem_range.mp ht) 0
  cases r1 with
  | inl st => exact ⟨st, by rw [get_game_state, h1]⟩
  | inr nf =>
    obtain ⟨r2, h2⟩ := boxesPass_ok_alpha s.grid halpha quadrants boxCells_bound_mem
    cases r2 with
    | some st => exact ⟨st, by rw [get_game_state, h1, h2]⟩
    | none =>
      by_cases hnf : nf = NUM_CELLS
      · exact ⟨.SOLVED, by rw [get_game_state, h1, h2]; exact if_pos hnf⟩
      · exact ⟨.VALID, by rw [get_game_state, h1, h2]; exact if_neg hnf⟩

/-- On an alphabet grid containing a duplicate digit in some row, column
or box, `get_game_state` returns `VIOLATION` or
`NO_CHOICES_FOR_EMPTY_CELL` — never `VALID`, `SOLVED`, or an error. -/
lemma get_game_state_dup (s : SudokuSolver) (halpha : alphaGrid s.grid)
    (hdup : ¬ gridDupFree s.grid) :
    get_game_state s = .ok .VIOLATION ∨
    get_game_state s = .ok .NO_CHOICES_FOR_EMPTY_CELL := by
  obtain ⟨st, hst⟩ := get_game_state_ok_alpha s halpha
  cases st with
  | VIOLATION => exact Or.inl hst
  | NO_CHOICES_FOR_EMPTY_CELL => exact Or.inr hst
  | VALID => exact absurd (gs_complete_dupFree s (Or.inl hst)) hdup
  | SOLVED => exact absurd (gs_complete_dupFree s (Or.inr hst)) hdup

/-- Nine distinct digit characters fill a nine-cell list: each digit
appears exactly once. -/
lemma dupFree_filled_eachDigitOnce (l : List Nat) (hlen : l.length = 9)
    (hvals : ∀ v ∈ l, 49 ≤ v ∧ v ≤ 57) (hdf : dupFree l) : eachDigitOnce l := by
  have hnd : l.Nodup := by
    refine List.Pairwise.imp_of_mem ?_ hdf
    intro a b ha hb hab
    have h1 := hvals a ha
    have h2 := hvals b hb
    exact hab (by rw [EMPTY_CELL]; omega) (by rw [EMPTY_CELL]; omega)
  intro d hd
  have hmem : (49 + d) ∈ l := by
    have hsub : l.toFinset ⊆ Finset.Icc 49 57 := by
      intro v hv
      rw [List.mem_toFinset] at hv
      obtain ⟨h1, h2⟩ := hvals v hv
      exact Finset.mem_Icc.mpr ⟨h1, h2⟩
    have hcard1 : l.toFinset.card = 9 := by
      rw [List.toFinset_card_of_nodup hnd, hlen]
    have hcard2 : (Finset.Icc 49 57).card = 9 := by
      rw [Nat.card_Icc]
    have heq : l.toFinset = Finset.Icc 49 57 :=
      Finset.eq_of_subset_of_card_le hsub (by omega)
    rw [← List.mem_toFinset, heq]
    exact Finset.mem_Icc.mpr ⟨by omega, by omega⟩
  have hle := List.nodup_iff_count_le_one.mp hnd (49 + d)
  have hge : 0 < l.count (49 + d) := List.count_pos_iff.mpr hmem
  omega

lemma rowVals_length (g : List Nat) (k : Nat) : (rowVals g k).length = 9 := by
  rw [rowVals, List.length_map, List.length_range]

lemma colVals_length (g : List Nat) (k : Nat) : (colVals g k).length = 9 := by
  rw [colVals, List.length_map, List.length_range]

lemma boxVals_length (g : List Nat) (k : Nat) : (boxVals g k).length = 9 := by
  rw [boxVals, List.length_map]
  rfl

/-- An all-filled, duplicate-free grid over the digit alphabet satisfies
the defining solved-grid property. -/
lemma sudokuValid_of_dupFree (g : List Nat) (halpha : alphaGrid g)
    (hfill : allFilled g) (hdf : gridDupFree g) : sudokuValid g := by
  intro k hk
  obtain ⟨hdr, hdc, hdb⟩ := hdf k hk
  refine ⟨?_, ?_, ?_⟩
  · refine dupFree_filled_eachDigitOnce (rowVals g k) (rowVals_length g k) ?_ hdr
    intro v hv
    rw [rowVals] at hv
    obtain ⟨c, hc, rfl⟩ := List.mem_map.mp hv
    have hc9 : c < 9 := List.mem_range.mp hc
    have h1 := halpha k c hk hc9
    have h2 := hfill k c hk hc9
    rw [EMPTY_CELL] at h2
    omega
  · refine dupFree_filled_eachDigitOnce (colVals g k) (colVals_length g k) ?_ hdc
    intro v hv
    rw [colVals] at hv
    obtain ⟨r, hr, rfl⟩ := List.mem_map.mp hv
    have hr9 : r < 9 := List.mem_range.mp hr
    have h1 := halpha r k hr9 hk
    have h2 := hfill r k hr9 hk
    rw [EMPTY_CELL] at h2
    omega
  · refine dupFree_filled_eachDigitOnce (boxVals g k) (boxVals_length g k) ?_ hdb
    intro v hv
    rw [boxVals] at hv
    obtain ⟨ij, hij, rfl⟩ := List.mem_map.mp hv
    obtain ⟨hi, hj⟩ := boxCells_bound k hk ij hij
    have h1 := halpha ij.1 ij.2 hi hj
    have h2 := hfill ij.1 ij.2 hi hj
    rw [EMPTY_CELL] at h2
    omega

/-- The all-empty puzzle: 81 `'0'` characters. -/
def emptyPuzzle : List Nat := List.replicate 81 48

/-- 81 `'1'` characters: a fully filled but massively duplicated grid. -/
def allOnesPuzzle : List Nat := List.replicate 81 49

/-- A puzzle whose first row starts `"11"`: a row duplicate, rest empty. -/
def dupPuzzle : List Nat := [49, 49] ++ List.replicate 79 48

/-- A classic fully solved, rule-valid grid (digit characters). -/
def solvedPuzzle : List Nat :=
  [5, 3, 4, 6, 7, 8, 9, 1, 2,
   6, 7, 2, 1, 9, 5, 3, 4, 8,
   1, 9, 8, 3, 4, 2, 5, 6, 7,
   8, 5, 9, 7, 6, 1, 4, 2, 3,
   4, 2, 6, 8, 5, 3, 7, 9, 1,
   7, 1, 3, 9, 2, 4, 8, 5, 6,
   9, 6, 1, 5, 3, 7, 2, 8, 4,
   2, 8, 7, 4, 1, 9, 6, 3, 5,
   3, 4, 5, 2, 8, 6, 1, 7, 9].map (fun d => 48 + d)

set_option maxRecDepth 100000

/-- C2: the claim says an empty candidate set yields the single sentinel
`['0']`.  In the code, `std::vector<char> digits{SIZE}` creates a vector
already holding the one element `char(9)`, so the result for the empty
set is `[9]`, the `digits.size()` test is always true, and the sentinel
`EMPTY_CELL` push-back is dead: the sentinel never appears in any
`available_digits` result. -/
theorem c2_sentinel_never_produced :
    available_digits (List.replicate 9 false) = [9] ∧
    available_digits (List.replicate 9 false) ≠ [EMPTY_CELL] ∧
    EMPTY_CELL ∉ available_digits (List.replicate 9 false) := by
  decide

/-- C3: on the all-empty (81 zeros) puzzle, construction succeeds, the
search places the stray `char(9)` (the head of every `available_digits`
result), `digit_to_idx` turns it into the index `2^64 - 40`, far beyond
the length-9 tracking arrays, and `solve()` reaches the out-of-bounds
branch of the embedding. -/
theorem c3_oob_reachable_from_solve :
    (∀ cc : List Bool, ∃ rest, available_digits cc = 9 :: rest) ∧
    digit_to_idx 9 = 2 ^ 64 - 40 ∧ ¬ digit_to_idx 9 < 9 ∧
    mkSolver emptyPuzzle = .ok (stateOf emptyPuzzle) ∧
    solve (stateOf emptyPuzzle) = some (.error .oob) := by
  refine ⟨?_, digit_to_idx_nine, digit_to_idx_nine_ge, by decide, by decide⟩
  intro cc
  obtain ⟨rest, h1, _⟩ := available_digits_shape cc
  exact ⟨rest, h1⟩

/-- C6 (counterexample): the 1-character input `"1"` constructs
successfully, but the uncovered cell `(0, 1)` holds the zero-initialized
`'\0'` (value 0), *not* the empty marker `'0'` (value 48). -/
theorem c6_uncovered_cell_not_empty_marker :
    mkSolver [49] = .ok (stateOf [49]) ∧
    readCell (stateOf [49]).grid 0 1 = 0 ∧
    readCell (stateOf [49]).grid 0 1 ≠ EMPTY_CELL := by
  decide

/-- C6 (amended): for an input shorter than 81 characters consisting of
digit characters `'1'..'9'`, construction succeeds, and every cell not
covered by the input holds the zero-initialized value 0 — which is not
the empty-cell marker (48). -/
theorem c6_short_input_amended (p : List Nat) (hlen : p.length < 81)
    (hdig : ∀ v ∈ p, 49 ≤ v ∧ v ≤ 57) :
    mkSolver p = .ok (stateOf p) ∧
    ∀ k, p.length ≤ k → k < 81 →
      (stateOf p).grid.getD k 0 = 0 ∧ (stateOf p).grid.getD k 0 ≠ EMPTY_CELL := by
  obtain ⟨hmk, hgrid⟩ := mkSolver_short p hlen hdig
  refine ⟨hmk, fun k hk1 hk2 => ?_⟩
  rw [hgrid, gridOf_getD_out p k hk1]
  exact ⟨rfl, by rw [EMPTY_CELL]; omega⟩

/-- C6 (witness): the amended statement applied to the input `"2"`. -/
theorem c6_short_input_witness :
    ([50] : List Nat).length < 81 ∧ (∀ v ∈ ([50] : List Nat), 49 ≤ v ∧ v ≤ 57) ∧
    (mkSolver [50] = .ok (stateOf [50]) ∧
      ∀ k, ([50] : List Nat).length ≤ k → k < 81 →
        (stateOf [50]).grid.getD k 0 = 0 ∧ (stateOf [50]).grid.getD k 0 ≠ EMPTY_CELL) :=
  ⟨by decide, by decide, c6_short_input_amended [50] (by decide) (by decide)⟩

/-- C7: the claim (and the spec) says an 82-character line fails with the
`range_error` "too many digits".  In the code the 82nd character first
goes through `set_value(9, 0, c)`, whose bounds check throws
`invalid_argument` — the `range_error` after it is dead code.  The board
is indeed never silently truncated (construction does fail), but with the
wrong error. -/
theorem c7_82_chars_wrong_error :
    mkSolver (List.replicate 82 49) = .error .invalidArgument ∧
    Err.invalidArgument ≠ Err.rangeError := by
  decide

/-- C9: the nearest-center box assignment agrees exactly with the
integer-division-by-3 partition on every in-range cell (and no tie ever
arises to make the first-minimal rule matter). -/
theorem c9_box_equals_division (x y : Nat) (hx : x < 9) (hy : y < 9) :
    quadrants.getD (find_closest_quadrant_idx x y) (0, 0) =
      ((x / 3) * 3 + 1, (y / 3) * 3 + 1) := by
  have h : ∀ a, a < 9 → ∀ b, b < 9 →
      quadrants.getD (find_closest_quadrant_idx a b) (0, 0) =
        ((a / 3) * 3 + 1, (b / 3) * 3 + 1) := by decide
  exact h x hx y hy

/-- C9 (witness): the box rule at the concrete cell `(5, 7)`. -/
theorem c9_box_equals_division_witness :
    5 < 9 ∧ 7 < 9 ∧
    quadrants.getD (find_closest_quadrant_idx 5 7) (0, 0) =
      ((5 / 3) * 3 + 1, (7 / 3) * 3 + 1) :=
  ⟨by decide, by decide, c9_box_equals_division 5 7 (by decide) (by decide)⟩

instance (l : List Nat) : Decidable (dupFree l) := by
  unfold dupFree
  infer_instance

instance (g : List Nat) : Decidable (gridDupFree g) := by
  unfold gridDupFree
  infer_instance

instance (l : List Nat) : Decidable (eachDigitOnce l) := by
  unfold eachDigitOnce
  infer_instance

instance (g : List Nat) : Decidable (sudokuValid g) := by
  unfold sudokuValid
  infer_instance

/-- An all-empty board whose cached candidate counts say "9 candidates
everywhere" (as after real construction from the empty puzzle). -/
def gsStateA : SudokuSolver :=
  { grid := List.replicate 81 48, counts := List.replicate 81 9, cube := initCube }

/-- The same board, but with cached candidate counts all zero. -/
def gsStateB : SudokuSolver :=
  { grid := List.replicate 81 48, counts := List.replicate 81 0, cube := initCube }

/-- `gsStateA` with a different (empty) constraints cube. -/
def gsStateC : SudokuSolver :=
  { grid := List.replicate 81 48, counts := List.replicate 81 9, cube := [] }

/-- C5 (counterexample): two solver states with identical 81-cell grids
but different cached candidate counts get different `get_game_state`
verdicts — the check reads `constraint_counts_`, so it is not a pure
function of the board alone. -/
theorem c5_gs_depends_on_counts :
    gsStateA.grid = gsStateB.grid ∧
    get_game_state gsStateA = .ok .VALID ∧
    get_game_state gsStateB = .ok .NO_CHOICES_FOR_EMPTY_CELL ∧
    get_game_state gsStateA ≠ get_game_state gsStateB := by
  decide

/-- C5 (amended): `get_game_state` is a pure function of the grid *and*
the cached constraint counts (it never reads the candidate cube, and, as
a function, calling it twice returns the same verdict). -/
theorem c5_gs_pure_of_grid_counts (s1 s2 : SudokuSolver)
    (hg : s1.grid = s2.grid) (hc : s1.counts = s2.counts) :
    get_game_state s1 = get_game_state s2 := by
  rw [get_game_state, get_game_state, hg, hc]

/-- C5 (witness): the amended statement applied to two states differing
only in the candidate cube. -/
theorem c5_gs_pure_witness :
    gsStateA.grid = gsStateC.grid ∧ gsStateA.counts = gsStateC.counts ∧
    get_game_state gsStateA = get_game_state gsStateC :=
  ⟨rfl, rfl, c5_gs_pure_of_grid_counts gsStateA gsStateC rfl rfl⟩

/-- C10: an already fully filled, rule-valid 81-character input
constructs successfully, and `solve()` returns success with the state
(hence every grid cell) unchanged: the search just skips the filled
cells. -/
theorem c10_solved_input_unchanged (p : List Nat) (hlen : p.length = 81)
    (halpha : ∀ v ∈ p, 48 ≤ v ∧ v ≤ 57)
    (hfilled : ∀ v ∈ p, v ≠ EMPTY_CELL)
    (_hvalid : gridDupFree (stateOf p).grid) :
    mkSolver p = .ok (stateOf p) ∧
    solve (stateOf p) = some (.ok (true, stateOf p)) := by
  obtain ⟨hmk, hgrid, hglen⟩ := mkSolver_alpha p hlen halpha
  refine ⟨hmk, ?_⟩
  rw [solve]
  apply solveAux_skip 110 (stateOf p) 0 0 (by omega) (by omega)
  intro x y hx hy
  rw [hgrid, readCell, gridOf_getD_in p (x * 9 + y) (by omega) (by omega)]
  exact hfilled _ (getD_mem p (x * 9 + y) 0 (by omega))

/-- C10 (witness): the statement applied to a classic solved grid. -/
theorem c10_solved_input_witness :
    solvedPuzzle.length = 81 ∧ (∀ v ∈ solvedPuzzle, 48 ≤ v ∧ v ≤ 57) ∧
    (∀ v ∈ solvedPuzzle, v ≠ EMPTY_CELL) ∧ gridDupFree (stateOf solvedPuzzle).grid ∧
    (mkSolver solvedPuzzle = .ok (stateOf solvedPuzzle) ∧
      solve (stateOf solvedPuzzle) = some (.ok (true, stateOf solvedPuzzle))) :=
  ⟨by decide, by decide, by decide, by decide,
    c10_solved_input_unchanged solvedPuzzle (by decide) (by decide) (by decide) (by decide)⟩

/-- C1 (counterexample): the all-`'1'` input is fully filled, so
`solve()` skips every cell and returns success with the grid unchanged —
yet row 0 is nine copies of `'1'`, so the solved-output property fails.
`solve()` success does not imply a rule-valid grid. -/
theorem c1_success_without_validity :
    mkSolver allOnesPuzzle = .ok (stateOf allOnesPuzzle) ∧
    solve (stateOf allOnesPuzzle) = some (.ok (true, stateOf allOnesPuzzle)) ∧
    (rowVals (stateOf allOnesPuzzle).grid 0).count 49 = 9 ∧
    ¬ sudokuValid (stateOf allOnesPuzzle).grid := by
  decide

/-- C1 (amended): for an 81-character input over `'0'..'9'` whose grid
has no duplicate digit in any row, column or box, if `solve()` returns
success then the resulting grid is the input grid and every row, column
and box contains each digit 1-9 exactly once.  (The no-duplicate
hypothesis is forced by the counterexample: `solve` never validates
pre-filled cells.) -/
theorem c1_success_valid_amended (p : List Nat) (hlen : p.length = 81)
    (halpha : ∀ v ∈ p, 48 ≤ v ∧ v ≤ 57)
    (hdf : gridDupFree (stateOf p).grid) :
    ∀ s', solve (stateOf p) = some (.ok (true, s')) →
      s' = stateOf p ∧ sudokuValid s'.grid := by
  intro s' hs
  obtain ⟨hmk, hgrid, hglen⟩ := mkSolver_alpha p hlen halpha
  obtain ⟨hseq, hfill⟩ := solve_true (stateOf p) s' hglen hs
  have halphag : alphaGrid (stateOf p).grid := by
    intro x y hx hy
    rw [hgrid, readCell, gridOf_getD_in p (x * 9 + y) (by omega) (by omega)]
    exact halpha _ (getD_mem p (x * 9 + y) 0 (by omega))
  subst hseq
  exact ⟨rfl, sudokuValid_of_dupFree _ halphag hfill hdf⟩

/-- C1 (witness): the amended statement applied to a classic solved
grid, on which `solve()` does return success. -/
theorem c1_success_valid_witness :
    solvedPuzzle.length = 81 ∧ (∀ v ∈ solvedPuzzle, 48 ≤ v ∧ v ≤ 57) ∧
    gridDupFree (stateOf solvedPuzzle).grid ∧
    (stateOf solvedPuzzle = stateOf solvedPuzzle ∧
      sudokuValid (stateOf solvedPuzzle).grid) :=
  ⟨by decide, by decide, by decide,
    c1_success_valid_amended solvedPuzzle (by decide) (by decide) (by decide)
      (stateOf solvedPuzzle) (by decide)⟩

/-- C4 (counterexample): the all-`'1'` input has a duplicate in row 0 and
`get_game_state` on the fresh board does return `VIOLATION` — but
`solve()` does *not* terminate with failure: it skips the filled cells
and returns success. -/
theorem c4_dup_input_solve_succeeds :
    mkSolver allOnesPuzzle = .ok (stateOf allOnesPuzzle) ∧
    ¬ gridDupFree (stateOf allOnesPuzzle).grid ∧
    get_game_state (stateOf allOnesPuzzle) = .ok .VIOLATION ∧
    solve (stateOf allOnesPuzzle) = some (.ok (true, stateOf allOnesPuzzle)) := by
  decide

/-- C4 (amended): for every 81-character input over `'0'..'9'` containing
a duplicate digit in some row, column or box, `get_game_state` on the
freshly constructed board returns `VIOLATION` or
`NO_CHOICES_FOR_EMPTY_CELL` (a zero-count empty cell earlier in the scan
can pre-empt the duplicate), `solve()` terminates (the fuel never runs
out), and — provided the board has at least one empty cell — `solve()`
never returns success. -/
theorem c4_dup_amended (p : List Nat) (hlen : p.length = 81)
    (halpha : ∀ v ∈ p, 48 ≤ v ∧ v ≤ 57)
    (hdup : ¬ gridDupFree (stateOf p).grid) :
    (get_game_state (stateOf p) = .ok .VIOLATION ∨
      get_game_state (stateOf p) = .ok .NO_CHOICES_FOR_EMPTY_CELL) ∧
    (∃ r, solve (stateOf p) = some r) ∧
    ((∃ x y, x < 9 ∧ y < 9 ∧ readCell (stateOf p).grid x y = EMPTY_CELL) →
      ∀ s', solve (stateOf p) ≠ some (.ok (true, s'))) := by
  obtain ⟨hmk, hgrid, hglen⟩ := mkSolver_alpha p hlen halpha
  have halphag : alphaGrid (stateOf p).grid := by
    intro x y hx hy
    rw [hgrid, readCell, gridOf_getD_in p (x * 9 + y) (by omega) (by omega)]
    exact halpha _ (getD_mem p (x * 9 + y) 0 (by omega))
  refine ⟨get_game_state_dup (stateOf p) halphag hdup,
    Option.ne_none_iff_exists'.mp (solve_total (stateOf p)), ?_⟩
  rintro ⟨x, y, hx, hy, hempty⟩ s' hs
  obtain ⟨_, hfill⟩ := solve_true (stateOf p) s' hglen hs
  exact hfill x y hx hy hempty

/-- C4 (witness): the amended statement applied to the input whose first
row starts `"11"`. -/
theorem c4_dup_amended_witness :
    dupPuzzle.length = 81 ∧ (∀ v ∈ dupPuzzle, 48 ≤ v ∧ v ≤ 57) ∧
    ¬ gridDupFree (stateOf dupPuzzle).grid ∧
    ((get_game_state (stateOf dupPuzzle) = .ok .VIOLATION ∨
      get_game_state (stateOf dupPuzzle) = .ok .NO_CHOICES_FOR_EMPTY_CELL) ∧
    (∃ r, solve (stateOf dupPuzzle) = some r) ∧
    ((∃ x y, x < 9 ∧ y < 9 ∧ readCell (stateOf dupPuzzle).grid x y = EMPTY_CELL) →
      ∀ s', solve (stateOf dupPuzzle) ≠ some (.ok (true, s')))) :=
  ⟨by decide, by decide, by decide,
    c4_dup_amended dupPuzzle (by decide) (by decide) (by decide)⟩

/-- C8 (counterexample): on the all-empty puzzle the search terminates,
but with the out-of-bounds error — neither success nor failure. -/
theorem c8_not_success_or_failure :
    mkSolver emptyPuzzle = .ok (stateOf emptyPuzzle) ∧
    solve (stateOf emptyPuzzle) = some (.error .oob) ∧
    ¬ ∃ (b : Bool) (s' : SudokuSolver),
      solve (stateOf emptyPuzzle) = some (.ok (b, s')) := by
  refine ⟨by decide, by decide, ?_⟩
  rintro ⟨b, s', hs⟩
  have h2 : solve (stateOf emptyPuzzle) = some (.error .oob) := by decide
  rw [h2] at hs
  cases Option.some.inj hs

/-- C8 (amended): `solve()` always terminates and yields a result
(success, failure, or an out-of-bounds error): the recursion strictly
advances the row-major cursor, so the fuel bound is never reached. -/
theorem c8_solve_terminates : ∀ s : SudokuSolver, ∃ r, solve s = some r :=
  fun s => Option.ne_none_iff_exists'.mp (solve_total s)
